import Mathlib

/-!
# Verification of the gerbers-renderer geometry pipeline

This file gives a shallow embedding of the core of the gerbers-renderer
repository (file classifier, Gerber parser, boolean polygon operations,
polygonizer, stackup builder) and proves or refutes the frozen claims
about it.

Conventions of the embedding:
* JavaScript numbers are modelled as exact rationals where only field
  arithmetic and comparisons occur (classifier, parser, boolean ops),
  and as real numbers where trigonometric functions occur (polygonizer,
  stackup).  NaN is modelled explicitly (as an `Option`) exactly where
  the source can produce it (aperture sizes from parseFloat).
* JavaScript Map objects are modelled as insertion-ordered association
  lists with replace-on-set semantics, or as update functions.
* The external martinez-polygon-clipping engine is an external
  collaborator of the repository; it is modelled as an oracle parameter
  producing an untyped JavaScript-like value (or failing, which models a
  thrown exception).
-/

set_option maxHeartbeats 1000000

namespace GerbersRenderer

/-! ## String helpers mirroring JavaScript string methods -/

/-- JS `String.prototype.includes`. -/
def containsSub (s sub : String) : Bool :=
  s.data.tails.any (fun t => sub.data.isPrefixOf t)

/-! ## src/io/file-classifier.ts -/

/-- An archive entry (name plus content); the lazy text accessors of the
source are modelled by storing the raw text. -/
structure ZipEntry where
  name : String
  text : String
deriving DecidableEq

inductive LayerRole where
  | top_copper | bottom_copper | inner_copper
  | top_mask | bottom_mask
  | top_silk | bottom_silk
  | outline | mechanical | unknown
deriving DecidableEq

structure LayerHint where
  pattern : String
  role : LayerRole
deriving DecidableEq

structure LayerHints where
  hints : List LayerHint
deriving DecidableEq

structure ClassifiedGerberFile where
  name : String
  role : LayerRole
  rawEntry : ZipEntry
deriving DecidableEq

structure ClassifiedDrillFile where
  name : String
  rawEntry : ZipEntry
deriving DecidableEq

structure ClassifiedFiles where
  gerbers : List ClassifiedGerberFile
  drills : List ClassifiedDrillFile
  ignored : List ZipEntry
deriving DecidableEq

/-- `isDrillFile` from src/io/file-classifier.ts. -/
def isDrillFile (lowerName : String) : Bool :=
  lowerName.endsWith ".drl" || lowerName.endsWith ".xlnt" ||
    containsSub lowerName "drill" || containsSub lowerName "via"

/-- `isLikelyGerber` from src/io/file-classifier.ts. -/
def isLikelyGerber (lowerName : String) : Bool :=
  lowerName.endsWith ".gbr" || lowerName.endsWith ".gbx" ||
  lowerName.endsWith ".pho" || lowerName.endsWith ".art" ||
  lowerName.endsWith ".cmp" || lowerName.endsWith ".sol" ||
  lowerName.endsWith ".stc" || lowerName.endsWith ".sts" ||
  lowerName.endsWith ".gtl" || lowerName.endsWith ".gbl" ||
  lowerName.endsWith ".gts" || lowerName.endsWith ".gbs" ||
  lowerName.endsWith ".gto" || lowerName.endsWith ".gbo" ||
  lowerName.endsWith ".gm1"

/-- Ordered search for one glob segment after another, with arbitrary gaps;
this is the meaning of the regex `^s0.*s1.*...*sk$` that `matchesPattern`
builds out of the segments of the pattern. -/
def seqMatch : List (List Char) → List Char → Bool
  | [], rest => rest.isEmpty
  | [last], rest => last.isSuffixOf rest
  | s :: s2 :: segs, rest =>
      (List.range (rest.length + 1)).any (fun i =>
        s.isPrefixOf (rest.drop i) &&
          seqMatch (s2 :: segs) (rest.drop (i + s.length)))

/-- `matchesPattern` from src/io/file-classifier.ts: wildcard match if the
pattern contains an asterisk, exact equality otherwise. -/
def matchesPattern (name pattern : String) : Bool :=
  if containsSub pattern "*" then
    match (pattern.splitOn "*").map (·.data) with
    | [] => name.isEmpty
    | s0 :: rest =>
        s0.isPrefixOf name.data &&
          (match rest with
           | [] => name.data == s0
           | _ => seqMatch rest (name.data.drop s0.length))
  else name == pattern

/-- `classifyLayerRole` from src/io/file-classifier.ts. -/
def classifyLayerRole (name : String) (hints : Option LayerHints) : LayerRole :=
  let parts := name.splitOn "/"
  let baseName := match parts.getLast? with
    | some b => if b = "" then name else b
    | none => name
  let lower := baseName.toLower
  let hinted : Option LayerRole :=
    match hints with
    | some h => (h.hints.find? (fun hint => matchesPattern baseName hint.pattern)).map (·.role)
    | none => none
  match hinted with
  | some r => r
  | none =>
    if containsSub lower "f_cu" || lower.endsWith ".gtl" ||
        (containsSub lower "top" && containsSub lower "cu") then .top_copper
    else if containsSub lower "b_cu" || lower.endsWith ".gbl" ||
        (containsSub lower "bot" && containsSub lower "cu") then .bottom_copper
    else if containsSub lower "in" && containsSub lower "cu" then .inner_copper
    else if containsSub lower "f_mask" || lower.endsWith ".gts" ||
        (containsSub lower "top" && containsSub lower "mask") then .top_mask
    else if containsSub lower "b_mask" || lower.endsWith ".gbs" ||
        (containsSub lower "bot" && containsSub lower "mask") then .bottom_mask
    else if containsSub lower "f_silk" || lower.endsWith ".gto" ||
        (containsSub lower "top" && containsSub lower "silk") then .top_silk
    else if containsSub lower "b_silk" || lower.endsWith ".gbo" ||
        (containsSub lower "bot" && containsSub lower "silk") then .bottom_silk
    else if containsSub lower "edge_cuts" || containsSub lower "outline" ||
        containsSub lower "edge" || lower.endsWith ".gm1" then .outline
    else if containsSub lower "mech" || containsSub lower "mechanical" then .mechanical
    else .unknown

/-- `classifyFiles` from src/io/file-classifier.ts.  The loop pushing onto
three buckets is modelled by structural recursion that preserves order. -/
def classifyFiles : List ZipEntry → Option LayerHints → ClassifiedFiles
  | [], _ => ⟨[], [], []⟩
  | e :: rest, hints =>
    let r := classifyFiles rest hints
    let lowerName := e.name.toLower
    if isDrillFile lowerName then
      ⟨r.gerbers, ⟨e.name, e⟩ :: r.drills, r.ignored⟩
    else if isLikelyGerber lowerName then
      ⟨⟨e.name, classifyLayerRole e.name hints, e⟩ :: r.gerbers, r.drills, r.ignored⟩
    else
      ⟨r.gerbers, r.drills, e :: r.ignored⟩


/-! ## src/geometry/boolean-ops.ts

Coordinates in this module are exact rationals.  The external
martinez-polygon-clipping library is an external collaborator; every
call to it is modelled through an oracle (`MartinezEngine`) that either
fails (modelling a thrown exception) or returns an untyped
JavaScript-like value (`JSVal`), which also captures malformed results. -/

structure QVec where
  x : ℚ
  y : ℚ
deriving DecidableEq

structure QPolygon where
  outer : List QVec
  holes : List (List QVec)
deriving DecidableEq

/-- An untyped JavaScript value as far as the defensive result handling
of boolean-ops.ts can observe it: null/undefined, a number, or an array. -/
inductive JSVal where
  | null : JSVal
  | num : ℚ → JSVal
  | arr : List JSVal → JSVal

def JSVal.isArr : JSVal → Bool
  | .arr _ => true
  | _ => false

def JSVal.isNum : JSVal → Bool
  | .num _ => true
  | _ => false

/-- JS truthiness for the values `JSVal` can hold (`![]` is `false` in JS,
so arrays are always truthy). -/
def JSVal.truthy : JSVal → Bool
  | .null => false
  | .num q => q != 0
  | .arr _ => true

/-- `v[i]` for array values; out-of-bounds indexing yields undefined,
conflated with `null` (both fail `Array.isArray` and `typeof ... ===
"number"` and are falsy). -/
def JSVal.idx : JSVal → ℕ → JSVal
  | .arr l, i => l.getD i .null
  | _, _ => .null

def JSVal.elems : JSVal → List JSVal
  | .arr l => l
  | _ => []

abbrev Point2D := ℚ × ℚ
abbrev Ring := List Point2D
abbrev PolygonCoords := List Ring

inductive BoolOp where
  | union | diff | intersection
deriving DecidableEq

/-- The external martinez engine as an oracle: `none` models a thrown
exception, `some v` a returned (possibly malformed) value. -/
abbrev MartinezEngine := BoolOp → JSVal → JSVal → Option JSVal

def coordsToJS (c : PolygonCoords) : JSVal :=
  .arr (c.map (fun ring => .arr (ring.map (fun p => .arr [.num p.1, .num p.2]))))

/-- `polygonToMartinez` from src/geometry/boolean-ops.ts. -/
def polygonToMartinez (poly : QPolygon) : Option PolygonCoords :=
  if poly.outer.length < 3 then none
  else
    let outer : Ring := poly.outer.map (fun p => (p.x, p.y))
    if outer.length < 3 then none
    else
      let holes : List Ring :=
        (poly.holes.filter (fun h => 3 ≤ h.length)).map (fun h => h.map (fun p => (p.x, p.y)))
      some (outer :: holes)

/-- One point of a martinez ring: destructuring `[x, y]` of an arbitrary
value.  (On a malformed non-numeric entry JS would produce undefined/NaN
coordinates; those are modelled as 0.  No claim exercises that path: the
depth heuristic of `martinezToPolygons` only accepts rings whose first
point is numeric, and all engine results used in the theorems below are
either well-formed or rejected wholesale.) -/
def pointFromJS (v : JSVal) : QVec :=
  ⟨match v.idx 0 with | .num q => q | _ => 0,
   match v.idx 1 with | .num q => q | _ => 0⟩

/-- One polygon (outer ring plus holes) of a martinez multi-polygon, with
the defensive skipping of `martinezToPolygons`. -/
def polyFromJS (poly : JSVal) : Option QPolygon :=
  match poly with
  | .arr (outerRing :: holeRings) =>
    match outerRing with
    | .arr opts =>
      if opts.length < 3 then none
      else
        some ⟨opts.map pointFromJS,
          holeRings.filterMap (fun r =>
            match r with
            | .arr pts => if 3 ≤ pts.length then some (pts.map pointFromJS) else none
            | _ => none)⟩
    | _ => none
  | _ => none

/-- `martinezToPolygons` from src/geometry/boolean-ops.ts, including the
nesting-depth heuristic distinguishing PolygonCoords from
MultiPolygonCoords. -/
def martinezToPolygons (result : JSVal) : List QPolygon :=
  if result.truthy = false then []
  else if result.isArr && (result.idx 0).isArr && ((result.idx 0).idx 0).isArr &&
      (((result.idx 0).idx 0).idx 0).isNum then
    ([result] : List JSVal).filterMap polyFromJS
  else if result.isArr && (result.idx 0).isArr && ((result.idx 0).idx 0).isArr &&
      (((result.idx 0).idx 0).idx 0).isArr && ((((result.idx 0).idx 0).idx 0).idx 0).isNum then
    result.elems.filterMap polyFromJS
  else []

/-- `safeBooleanOp` from src/geometry/boolean-ops.ts: the try/catch
around the engine call, returning null on a thrown exception. -/
def safeBooleanOp (e : MartinezEngine) (op : BoolOp) (a b : JSVal) : JSVal :=
  match e op a b with
  | none => .null
  | some v => v

/-- The pairwise left-to-right union-reduce loop shared verbatim by
`unionPolygons`, `subtractPolygons` and `intersectPolygons`; `none`
models the early `return` taken when a call yields a falsy result. -/
def unionReduce (e : MartinezEngine) (acc : JSVal) : List PolygonCoords → Option JSVal
  | [] => some acc
  | c :: rest =>
    let res := safeBooleanOp e .union acc (coordsToJS c)
    if res.truthy = false then none else unionReduce e res rest

/-- `unionPolygons` from src/geometry/boolean-ops.ts. -/
def unionPolygons (e : MartinezEngine) (polys : List QPolygon) : List QPolygon :=
  if polys.isEmpty then []
  else
    let pairs := polys.filterMap (fun p => (polygonToMartinez p).map (fun c => (p, c)))
    let validPolys := pairs.map (·.1)
    let polyCoordsList := pairs.map (·.2)
    if polyCoordsList.isEmpty then []
    else if polyCoordsList.length = 1 then validPolys
    else
      match polyCoordsList with
      | [] => []
      | c0 :: cs =>
        match unionReduce e (coordsToJS c0) cs with
        | none => validPolys
        | some r =>
          let merged := martinezToPolygons r
          if merged.isEmpty then validPolys else merged

/-- `subtractPolygons` from src/geometry/boolean-ops.ts. -/
def subtractPolygons (e : MartinezEngine) (a b : List QPolygon) : List QPolygon :=
  if a.isEmpty then []
  else if b.isEmpty then a
  else
    let aPairs := a.filterMap (fun p => (polygonToMartinez p).map (fun c => (p, c)))
    let aValid := aPairs.map (·.1)
    let aCoordsList := aPairs.map (·.2)
    if aCoordsList.isEmpty then []
    else
      let bCoordsList := b.filterMap polygonToMartinez
      if bCoordsList.isEmpty then aValid
      else
        match aCoordsList, bCoordsList with
        | a0 :: arest, b0 :: brest =>
          match unionReduce e (coordsToJS a0) arest with
          | none => aValid
          | some aUnion =>
            match unionReduce e (coordsToJS b0) brest with
            | none => aValid
            | some bUnion =>
              let diffRes := safeBooleanOp e .diff aUnion bUnion
              if diffRes.truthy = false then aValid
              else
                let result := martinezToPolygons diffRes
                if result.isEmpty then aValid else result
        | _, _ => []

/-- `intersectPolygons` from src/geometry/boolean-ops.ts. -/
def intersectPolygons (e : MartinezEngine) (a b : List QPolygon) : List QPolygon :=
  if a.isEmpty || b.isEmpty then []
  else
    let aCoordsList := a.filterMap polygonToMartinez
    if aCoordsList.isEmpty then []
    else
      let bCoordsList := b.filterMap polygonToMartinez
      if bCoordsList.isEmpty then []
      else
        match aCoordsList, bCoordsList with
        | a0 :: arest, b0 :: brest =>
          match unionReduce e (coordsToJS a0) arest with
          | none => []
          | some aUnion =>
            match unionReduce e (coordsToJS b0) brest with
            | none => []
            | some bUnion =>
              let interRes := safeBooleanOp e .intersection aUnion bUnion
              if interRes.truthy = false then [] else martinezToPolygons interRes
        | _, _ => []

/-- The engine used as the C2 counterexample: every call throws. -/
def engineAlwaysThrows : MartinezEngine := fun _ _ _ => none

/-- A 10 by 10 square with a valid outer ring. -/
def unitSquareQ : QPolygon := ⟨[⟨0, 0⟩, ⟨10, 0⟩, ⟨10, 10⟩, ⟨0, 10⟩], []⟩

/-- An engine modelling what martinez-polygon-clipping actually returns
for the difference of a region with itself: an empty multi-polygon. -/
def engineEmptyResult : MartinezEngine := fun _ _ _ => some (.arr [])

/-- "Every internal engine call fails": each call either throws, or
returns a value that is falsy or malformed (not decodable into any
polygon). -/
def EngineAllFails (e : MartinezEngine) : Prop :=
  ∀ op x y r, e op x y = some r → r.truthy = true → martinezToPolygons r = []


/-! ## src/parse/gerber-parser.ts (current revision)

Coordinates are exact rationals.  JS `parseFloat` can produce NaN, which
the source stores in aperture size fields; a possibly-NaN number is
modelled as `JNum := Option ℚ` with `none` for NaN, and an
optionally-present possibly-NaN field as `Option JNum`.  The JS regular
expressions of the source are modelled by equivalent scanners over the
character list (each regex is anchored-free with no alternation, so the
leftmost-match scan below is its exact semantics). -/

/-- A JS number that may be NaN (`none` is NaN). -/
abbrev JNum := Option ℚ

structure GVec where
  x : ℚ
  y : ℚ
deriving DecidableEq

/-- A track primitive; the source field `end` is called `stop` here
because `end` is reserved in Lean. -/
structure GerberPrimitiveTrack where
  start : GVec
  stop : GVec
  width : JNum
deriving DecidableEq

structure GerberPrimitiveArc where
  start : GVec
  stop : GVec
  center : GVec
  clockwise : Bool
  width : JNum
deriving DecidableEq

structure GerberPrimitiveFlash where
  position : GVec
  diameterMm : JNum
  shape : Char
  widthMm : Option JNum
  heightMm : Option JNum
deriving DecidableEq

structure GerberPrimitiveRegion where
  boundary : List GVec
  holes : List (List GVec)
deriving DecidableEq

structure GerberPrimitives where
  tracks : List GerberPrimitiveTrack
  arcs : List GerberPrimitiveArc
  flashes : List GerberPrimitiveFlash
  regions : List GerberPrimitiveRegion
deriving DecidableEq

structure Aperture where
  code : ℕ
  shape : Char
  diameterMm : Option JNum
  widthMm : Option JNum
  heightMm : Option JNum
deriving DecidableEq

/-- The mutable parser state of parseGerberFile. -/
structure ParserState where
  unitScale : ℚ
  fmtInt : ℕ
  fmtDec : ℕ
  x : ℚ
  y : ℚ
  apertures : List (ℕ × Aperture)
  currentAperture : Option Aperture
  inRegion : Bool
  regionPaths : List (List GVec)
  currentPath : List GVec
  tracks : List GerberPrimitiveTrack
  arcs : List GerberPrimitiveArc
  flashes : List GerberPrimitiveFlash
  regions : List GerberPrimitiveRegion
deriving DecidableEq

/-- JS `Map.set`: replace in place if present, else append. -/
def mapSet (m : List (ℕ × Aperture)) (k : ℕ) (v : Aperture) : List (ℕ × Aperture) :=
  if m.any (fun p => p.1 == k) then
    m.map (fun p => if p.1 = k then (k, v) else p)
  else m ++ [(k, v)]

/-- JS `String.prototype.startsWith`, phrased over character data. -/
def jsStartsWith (s pre : String) : Bool := pre.data.isPrefixOf s.data

/-- JS `String.prototype.endsWith`, phrased over character data. -/
def jsEndsWith (s suf : String) : Bool := suf.data.isSuffixOf s.data

/-- Split on the regex `\r?\n` as `content.split` does. -/
def jsSplitLines (content : String) : List String :=
  (content.splitOn "\n").map (fun l => if jsEndsWith l "\r" then l.dropRight 1 else l)

def digitsToNat (ds : List Char) : ℕ :=
  ds.foldl (fun n c => 10 * n + (c.toNat - '0'.toNat)) 0

/-- JS `parseInt(s, 10)` on a sign-free string: longest digit prefix,
NaN (`none`) if there is none. -/
def jsParseIntNat (s : List Char) : Option ℕ :=
  let ds := s.takeWhile Char.isDigit
  if ds.isEmpty then none else some (digitsToNat ds)

/-- JS `parseFloat` on a sign-free string: longest `digits[.digits]`
prefix, NaN if there is no leading digit and no `.digit`. -/
def jsParseFloat (s : List Char) : JNum :=
  let intPart := s.takeWhile Char.isDigit
  let rest := s.drop intPart.length
  let frac : List Char :=
    match rest with
    | '.' :: r => r.takeWhile Char.isDigit
    | _ => []
  if intPart.isEmpty && frac.isEmpty then none
  else some ((digitsToNat intPart : ℚ) + (digitsToNat frac : ℚ) / 10 ^ frac.length)

/-- `decodeCoord` from gerber-parser.ts.  `numStr.startsWith("-")` is the
head-character test; `replace(/[+\-]/g, "")` removes every sign
character. -/
def decodeCoord (numStr : String) (s : ParserState) : ℚ :=
  let sign : ℚ := if numStr.data.head? = some '-' then -1 else 1
  let digits := numStr.data.filter (fun c => !(c == '+') && !(c == '-'))
  match jsParseIntNat digits with
  | none => 0
  | some n =>
    let scale : ℚ := 10 ^ s.fmtDec
    let val := ((n : ℚ) / scale) * s.unitScale
    sign * val

/-- Match of `/FS..X(\d)(\d)Y(\d)(\d)/` at the head of the list. -/
def fsHere : List Char → Option (Char × Char)
  | 'F' :: 'S' :: _ :: _ :: 'X' :: d1 :: d2 :: 'Y' :: d3 :: d4 :: _ =>
    if d1.isDigit && d2.isDigit && d3.isDigit && d4.isDigit then some (d1, d2) else none
  | _ => none

/-- Leftmost match of the FS regex. -/
def fsScan : List Char → Option (Char × Char)
  | [] => none
  | c :: rest =>
    match fsHere (c :: rest) with
    | some r => some r
    | none => fsScan rest

/-- Match of `/AD(D?)(\d+)([A-Z]),?([0-9.Xx]*)/` at the head of the list,
returning (code digits, shape, params).  The optional `D` only sticks
when a digit follows it (otherwise the `\d+` group cannot match). -/
def adHere : List Char → Option (List Char × Char × List Char)
  | 'A' :: 'D' :: rest =>
    let rest2 :=
      match rest with
      | 'D' :: r2 => if (r2.head?.map Char.isDigit).getD false then r2 else rest
      | _ => rest
    let ds := rest2.takeWhile Char.isDigit
    if ds.isEmpty then none
    else
      match rest2.drop ds.length with
      | sh :: rest3 =>
        if 'A' ≤ sh && sh ≤ 'Z' then
          let rest4 :=
            match rest3 with
            | ',' :: r => r
            | _ => rest3
          let params := rest4.takeWhile (fun c => c.isDigit || c == '.' || c == 'X' || c == 'x')
          some (ds, sh, params)
        else none
      | [] => none
  | _ => none

/-- Leftmost match of the AD regex. -/
def adScan : List Char → Option (List Char × Char × List Char)
  | [] => none
  | c :: rest =>
    match adHere (c :: rest) with
    | some r => some r
    | none => adScan rest

/-- Whether the characters after a `D` complete a match of `/D0?(\d{1,3})$/`:
all digits up to the end of the line, between 1 and 3 of them, or 4 when
the first is the optional `0`. -/
def dValidTail (rest : List Char) : Bool :=
  rest.all Char.isDigit && decide (1 ≤ rest.length) &&
    (decide (rest.length ≤ 3) || (decide (rest.length = 4) && rest.head? == some '0'))

/-- The captured group of `/D0?(\d{1,3})$/` (the greedy `0?` eats a
leading zero whenever at least one digit remains). -/
def dCodeOf (rest : List Char) : ℕ :=
  let m1 := if rest.head? = some '0' ∧ 2 ≤ rest.length then rest.drop 1 else rest
  digitsToNat m1

/-- Leftmost match of `/D0?(\d{1,3})$/`; returns the line with the match
stripped from its end, and the decoded D code. -/
def dSearch (acc : List Char) : List Char → Option (List Char × ℕ)
  | [] => none
  | c :: rest =>
    if c = 'D' && dValidTail rest then some (acc.reverse, dCodeOf rest)
    else dSearch (c :: acc) rest

/-- Capture of `/([+\-]?\d+)/` at the head of the list (the part after
the coordinate letter). -/
def coordHere (l : List Char) : Option (List Char) :=
  match l with
  | [] => none
  | c :: rest =>
    if c = '+' || c = '-' then
      let ds := rest.takeWhile Char.isDigit
      if ds.isEmpty then none else some (c :: ds)
    else
      let ds := l.takeWhile Char.isDigit
      if ds.isEmpty then none else some ds

/-- Leftmost match of `/X([+\-]?\d+)/` (with `target` the coordinate
letter), returning the captured group. -/
def coordScan (target : Char) : List Char → Option (List Char)
  | [] => none
  | c :: rest =>
    if c = target then
      match coordHere rest with
      | some cap => some cap
      | none => coordScan target rest
    else coordScan target rest

/-- NaN-propagating multiplication. -/
def jmul (j : JNum) (q : ℚ) : JNum := j.map (· * q)

/-- JS `Math.min` (NaN-propagating). -/
def jmin : JNum → JNum → JNum
  | some a, some b => some (min a b)
  | _, _ => none

/-- The in-place `*= factor` rescale applied to one aperture by the MO
branch. -/
def scaleAperture (factor : ℚ) (ap : Aperture) : Aperture :=
  { ap with
    diameterMm := ap.diameterMm.map (fun j => jmul j factor)
    widthMm := ap.widthMm.map (fun j => jmul j factor)
    heightMm := ap.heightMm.map (fun j => jmul j factor) }

/-- The percent/asterisk stripping at the top of `handleParameterBlock`. -/
def paramBody (block : String) : String :=
  let body := block
  let body := if jsStartsWith body "%" then body.drop 1 else body
  let body := if jsEndsWith body "%" then body.dropRight 1 else body
  let body := if jsEndsWith body "*" then body.dropRight 1 else body
  body

/-- `handleParameterBlock` from gerber-parser.ts (current revision, with
the retroactive aperture rescale in the MO branch). -/
def handleParameterBlock (block : String) (s : ParserState) : ParserState :=
  let body := paramBody block
  if jsStartsWith body "FS" then
    match fsScan body.data with
    | some (d1, d2) =>
      { s with fmtInt := d1.toNat - '0'.toNat, fmtDec := d2.toNat - '0'.toNat }
    | none => s
  else if jsStartsWith body "MO" then
    let oldScale := s.unitScale
    let newScale : ℚ :=
      if containsSub body "MOMM" then 1
      else if containsSub body "MOIN" then 254 / 10
      else oldScale
    if newScale ≠ oldScale then
      let factor := newScale / oldScale
      { s with
        apertures := s.apertures.map (fun p => (p.1, scaleAperture factor p.2))
        unitScale := newScale }
    else s
  else if jsStartsWith body "AD" then
    match adScan body.data with
    | none => s
    | some (ds, shape, params) =>
      let code := digitsToNat ds
      let sizes : Option JNum × Option JNum × Option JNum :=
        if params.isEmpty then (none, none, none)
        else
          let parts := params.splitOnP (fun c => c == 'X' || c == 'x')
          let p0 := parts.headD []
          let sizeXmm : Option JNum :=
            if p0.isEmpty then none else some (jmul (jsParseFloat p0) s.unitScale)
          let sizeYmm : Option JNum :=
            match parts.drop 1 with
            | p1 :: _ => if p1.isEmpty then none else some (jmul (jsParseFloat p1) s.unitScale)
            | [] => none
          if shape = 'C' then (sizeXmm, none, none)
          else if shape = 'R' ∨ shape = 'O' then
            (match sizeXmm, sizeYmm with
             | some jx, some jy => some (jmin jx jy)
             | _, _ => sizeXmm.orElse (fun _ => sizeYmm),
             sizeXmm, sizeYmm)
          else (sizeXmm.orElse (fun _ => sizeYmm), none, none)
      let ap : Aperture := ⟨code, shape, sizes.1, sizes.2.1, sizes.2.2⟩
      { s with apertures := mapSet s.apertures code ap }
  else s

/-- The coordinate-and-operation tail of `handleCommandLine`, after the
D code (if any) has been stripped from the end of the line. -/
def processCoords (kept : List Char) (dCode : Option ℕ) (s : ParserState) : ParserState :=
  let newX :=
    match coordScan 'X' kept with
    | some cap => decodeCoord (String.mk cap) s
    | none => s.x
  let newY :=
    match coordScan 'Y' kept with
    | some cap => decodeCoord (String.mk cap) s
    | none => s.y
  match dCode with
  | none => { s with x := newX, y := newY }
  | some d =>
    if s.inRegion then
      let s2 :=
        if d = 1 then
          let cp := if s.currentPath.isEmpty then s.currentPath ++ [⟨s.x, s.y⟩] else s.currentPath
          { s with currentPath := cp ++ [⟨newX, newY⟩] }
        else if d = 2 then
          { s with
            regionPaths :=
              if 3 ≤ s.currentPath.length then s.regionPaths ++ [s.currentPath]
              else s.regionPaths
            currentPath := [] }
        else s
      { s2 with x := newX, y := newY }
    else
      if d = 1 then
        match s.currentAperture with
        | none => { s with x := newX, y := newY }
        | some ap =>
          let width : JNum :=
            match ap.diameterMm with
            | some j => j
            | none => some (1 / 5)
          { s with
            tracks := s.tracks ++ [⟨⟨s.x, s.y⟩, ⟨newX, newY⟩, width⟩]
            x := newX, y := newY }
      else if d = 2 then { s with x := newX, y := newY }
      else if d = 3 then
        match s.currentAperture with
        | some ap =>
          let dv : JNum :=
            match ap.diameterMm with
            | some j => j
            | none => some (4 / 5)
          { s with
            flashes := s.flashes ++ [⟨⟨newX, newY⟩, dv, ap.shape, ap.widthMm, ap.heightMm⟩]
            x := newX, y := newY }
        | none => { s with x := newX, y := newY }
      else { s with x := newX, y := newY }

/-- `handleCommandLine` from gerber-parser.ts (current revision). -/
def handleCommandLine (line : String) (s : ParserState) : ParserState :=
  if line = "G36" then { s with inRegion := true, regionPaths := [], currentPath := [] }
  else if line = "G37" then
    let regionPaths :=
      if 3 ≤ s.currentPath.length then s.regionPaths ++ [s.currentPath] else s.regionPaths
    let regions :=
      if 0 < regionPaths.length then
        s.regions ++ [⟨regionPaths.headD [], regionPaths.drop 1⟩]
      else s.regions
    { s with inRegion := false, regions := regions, regionPaths := [], currentPath := [] }
  else
    match dSearch [] line.data with
    | some (kept, d) =>
      if 10 ≤ d then
        match (s.apertures.find? (fun p => p.1 == d)).map (·.2) with
        | some ap => { s with currentAperture := some ap }
        | none => s
      else processCoords kept (some d) s
    | none => processCoords line.data none s

def initParserState : ParserState :=
  ⟨1, 2, 4, 0, 0, [], none, false, [], [], [], [], [], []⟩

/-- One iteration of the line loop of `parseGerberFile`. -/
def processLine (s : ParserState) (rawLine : String) : ParserState :=
  let line := rawLine.trim
  if line.isEmpty then s
  else if jsStartsWith line "G04" then s
  else if jsStartsWith line "%" && jsEndsWith line "%" then handleParameterBlock line s
  else
    let line2 := if jsEndsWith line "*" then line.dropRight 1 else line
    handleCommandLine line2 s

/-- The end-of-file finalization of an open region in `parseGerberFile`. -/
def finalizeRegion (s : ParserState) : ParserState :=
  if s.inRegion then
    let regionPaths :=
      if 3 ≤ s.currentPath.length then s.regionPaths ++ [s.currentPath] else s.regionPaths
    let regions :=
      if 0 < regionPaths.length then
        s.regions ++ [⟨regionPaths.headD [], regionPaths.drop 1⟩]
      else s.regions
    { s with inRegion := false, regions := regions, regionPaths := [], currentPath := [] }
  else s

/-- `parseGerberFile` from gerber-parser.ts (current revision). -/
def parseGerberFile (_name : String) (content : String) (_role : String) : GerberPrimitives :=
  let st := (jsSplitLines content).foldl processLine initParserState
  let st2 := finalizeRegion st
  ⟨st2.tracks, st2.arcs, st2.flashes, st2.regions⟩

/-- The unit scale selected by an MO parameter block, given the previous
scale. -/
def moNewScale (body : String) (oldScale : ℚ) : ℚ :=
  if containsSub body "MOMM" then 1
  else if containsSub body "MOIN" then 254 / 10
  else oldScale

/-- Witness state for C6: a single circular aperture of 0.3 mm defined
while in millimeter mode. -/
def mwState : ParserState :=
  { initParserState with apertures := [(10, ⟨10, 'C', some (some (3 / 10)), none, none⟩)] }

/-- The region-related well-formedness maintained by the parser: every
completed contour retained for the current region has at least 3 points,
and every emitted region has a boundary and holes of at least 3 points. -/
def RegionInv (s : ParserState) : Prop :=
  (∀ c ∈ s.regionPaths, 3 ≤ c.length) ∧
  (∀ r ∈ s.regions, 3 ≤ r.boundary.length ∧ ∀ h ∈ r.holes, 3 ≤ h.length)

/-- Witness state for C4: an open region with one completed 3-point
contour and an incomplete 2-point current contour. -/
def rwState : ParserState :=
  { initParserState with
    inRegion := true
    regionPaths := [[⟨0, 0⟩, ⟨1, 0⟩, ⟨1, 1⟩]]
    currentPath := [⟨0, 0⟩, ⟨1, 0⟩] }

/-! ## src/geometry/polygonizer.ts

Coordinates are real numbers: the stroker uses trigonometric functions,
so the module is embedded over `ℝ` (`noncomputable`); witnesses are
evaluated through explicit real-arithmetic lemmas.  `Math.atan2 y x` is
`Complex.arg ⟨x, y⟩` (both are the angle of the vector `(x, y)` in
`(-π, π]`, with `atan2 0 0 = 0 = arg 0`), `Math.hypot` is the square
root of the sum of squares, `Math.round` is `⌊x + 1/2⌋`. -/

noncomputable section

structure RVec where
  x : ℝ
  y : ℝ

/-- A track; the source field `end` is called `stop` here. -/
structure RTrack where
  start : RVec
  stop : RVec
  width : ℝ

structure RArc where
  start : RVec
  stop : RVec
  center : RVec
  clockwise : Bool
  width : ℝ

structure RFlash where
  position : RVec
  diameterMm : ℝ

structure RRegion where
  boundary : List RVec
  holes : List (List RVec)

structure RPrimitives where
  tracks : List RTrack
  arcs : List RArc
  flashes : List RFlash
  regions : List RRegion

structure RPolygon where
  outer : List RVec
  holes : List (List RVec)

structure Polyline where
  points : List RVec
  width : ℝ

def DEFAULT_TRACE_WIDTH_MM : ℝ := 1 / 5
def DEFAULT_FLASH_DIAM_MM : ℝ := 4 / 5
def DEFAULT_CIRCLE_SEGMENTS : ℕ := 32
def POINT_JOIN_EPS : ℝ := 1 / 1000

def hypotR (dx dy : ℝ) : ℝ := Real.sqrt (dx * dx + dy * dy)

/-- JS `Math.round`. -/
def jsRound (x : ℝ) : ℤ := ⌊x + 1 / 2⌋

/-- JS `Math.atan2 y x`. -/
def jsAtan2 (y x : ℝ) : ℝ := Complex.arg ⟨x, y⟩

/-- JS `Math.sign`. -/
def jsSign (x : ℝ) : ℝ := if x < 0 then -1 else if 0 < x then 1 else 0

/-- `keyOf` from polygonizer.ts; the string key template literal is
injective in the two rounded integers, so the key is modelled as the
pair itself. -/
def keyOf (p : RVec) : ℤ × ℤ := (jsRound (p.x * 1000), jsRound (p.y * 1000))

def isSamePoint (a b : RVec) : Bool :=
  decide ((a.x - b.x) * (a.x - b.x) + (a.y - b.y) * (a.y - b.y)
    ≤ POINT_JOIN_EPS * POINT_JOIN_EPS)

/-- The endpoint adjacency index; the JS `Map` from key strings to
arrays of `(idx, end)` records is a function from keys to lists, each
list in push order.  `true` marks the `"start"` end. -/
def NodeMap := ℤ × ℤ → List (ℕ × Bool)

def nmAdd (m : NodeMap) (k : ℤ × ℤ) (e : ℕ × Bool) : NodeMap :=
  fun k2 => if k2 = k then m k ++ [e] else m k2

def buildNodeMap (tracks : List RTrack) : NodeMap :=
  tracks.enum.foldl
    (fun m p => nmAdd (nmAdd m (keyOf p.2.start) (p.1, true)) (keyOf p.2.stop) (p.1, false))
    (fun _ => [])

/-- The candidate-search loop inside `extendPolyline`: the first
unvisited incident track whose start (preferred) or end coincides with
the pivot.  Out-of-range indices read as visited (they cannot occur for
indices produced by `buildNodeMap`). -/
def pickCandidate (tracks : List RTrack) (visited : List Bool) (pivot : RVec) :
    List (ℕ × Bool) → Option (ℕ × Bool)
  | [] => none
  | inc :: rest =>
    if visited.getD inc.1 true then pickCandidate tracks visited pivot rest
    else
      match tracks.get? inc.1 with
      | none => pickCandidate tracks visited pivot rest
      | some cand =>
        if isSamePoint cand.start pivot then some (inc.1, true)
        else if isSamePoint cand.stop pivot then some (inc.1, false)
        else pickCandidate tracks visited pivot rest

def countFalse (v : List Bool) : ℕ := v.count false

/-- `extendPolyline` from polygonizer.ts: greedily extend the polyline
from the chosen side while an unvisited continuation exists.  The
`while` loop terminates because every iteration marks one unvisited
track as visited. -/
def extendPolyline (tracks : List RTrack) (nodeMap : NodeMap) (fromStart : Bool)
    (points : List RVec) (visited : List Bool) : List RVec × List Bool :=
  let pivot := if fromStart then points.headD ⟨0, 0⟩ else points.getLastD ⟨0, 0⟩
  match hpick : pickCandidate tracks visited pivot (nodeMap (keyOf pivot)) with
  | none => (points, visited)
  | some ib =>
    let nextTrack := tracks.getD ib.1 ⟨⟨0, 0⟩, ⟨0, 0⟩, 0⟩
    let visited2 := visited.set ib.1 true
    let other := if ib.2 then nextTrack.stop else nextTrack.start
    let points2 := if fromStart then other :: points else points ++ [other]
    extendPolyline tracks nodeMap fromStart points2 visited2
termination_by countFalse visited
decreasing_by
  have key : ∀ (incs : List (ℕ × Bool)) (res : ℕ × Bool),
      pickCandidate tracks visited pivot incs = some res →
      visited.getD res.1 true = false := by
    intro incs
    induction incs with
    | nil => intro res h; simp [pickCandidate] at h
    | cons inc rest ih =>
      intro res h
      rw [pickCandidate] at h
      by_cases hv : visited.getD inc.1 true = true
      · rw [if_pos hv] at h
        exact ih res h
      · rw [if_neg hv] at h
        cases hg : tracks.get? inc.1 with
        | none => rw [hg] at h; exact ih res h
        | some cand =>
          rw [hg] at h
          dsimp only at h
          by_cases h1 : isSamePoint cand.start pivot = true
          · rw [if_pos h1] at h
            cases h
            simpa using hv
          · rw [if_neg h1] at h
            by_cases h2 : isSamePoint cand.stop pivot = true
            · rw [if_pos h2] at h
              cases h
              simpa using hv
            · rw [if_neg h2] at h
              exact ih res h
  have hset : ∀ (l : List Bool) (i : ℕ), l.getD i true = false →
      (l.set i true).count false < l.count false := by
    intro l
    induction l with
    | nil => intro i h; simp [List.getD] at h
    | cons b t ih =>
      intro i h
      cases i with
      | zero =>
        simp only [List.getD_cons_zero] at h
        subst h
        simp [List.set, List.count_cons]
      | succ j =>
        simp only [List.getD_cons_succ] at h
        have := ih j h
        simp only [List.set, List.count_cons]
        omega
  have hfalse := key _ ib hpick
  simp only [countFalse]
  exact hset visited ib.1 hfalse

/-- `dedupePoints` from polygonizer.ts: drop consecutive points closer
than the join epsilon to the last kept point. -/
def dedupeGo (last : RVec) : List RVec → List RVec
  | [] => []
  | q :: qs => if isSamePoint q last then dedupeGo last qs else q :: dedupeGo q qs

def dedupePoints : List RVec → List RVec
  | [] => []
  | p :: rest => p :: dedupeGo p rest

/-- The search for the first non-degenerate direction at the top of
`simplifyPolyline`; returns the point where it was found and the unit
direction. -/
def findFirstDir (p0 : RVec) (minSegLen : ℝ) : List RVec → Option (RVec × RVec)
  | [] => none
  | q :: qs =>
    let dx := q.x - p0.x
    let dy := q.y - p0.y
    let len := hypotR dx dy
    if minSegLen ≤ len then some (q, ⟨dx / len, dy / len⟩)
    else findFirstDir p0 minSegLen qs

/-- One iteration of the main loop of `simplifyPolyline`; the state is
(out, prev, prevDir). -/
def simplifyStep (angleEps minSegLen : ℝ) (st : List RVec × RVec × RVec) (curr : RVec) :
    List RVec × RVec × RVec :=
  let out := st.1
  let prev := st.2.1
  let prevDir := st.2.2
  let dx := curr.x - prev.x
  let dy := curr.y - prev.y
  let len := hypotR dx dy
  if len < minSegLen then st
  else
    let dir : RVec := ⟨dx / len, dy / len⟩
    let dot := prevDir.x * dir.x + prevDir.y * dir.y
    let clampedDot := min 1 (max (-1) dot)
    let angle := Real.arccos clampedDot
    if |angle| < angleEps then (out.dropLast ++ [curr], curr, prevDir)
    else (out ++ [curr], curr, dir)

/-- `simplifyPolyline` from polygonizer.ts.  The main loop always starts
at index 2 (`out.length` at that point), so it runs over `pts.drop 2`. -/
def simplifyPolyline (pts : List RVec) (angleEpsDeg : ℝ := 2) (minSegLen : ℝ := 1 / 10000) :
    List RVec :=
  if pts.length ≤ 2 then pts
  else
    let angleEps := angleEpsDeg * Real.pi / 180
    let p0 := pts.headD ⟨0, 0⟩
    match findFirstDir p0 minSegLen (pts.drop 1) with
    | none => [p0, pts.getLastD ⟨0, 0⟩]
    | some pd =>
      let st := (pts.drop 2).foldl (simplifyStep angleEps minSegLen) ([p0, pd.1], pd.1, pd.2)
      if st.1.length < 2 then [p0, pts.getLastD ⟨0, 0⟩] else st.1

/-- One iteration of the polyline-collection loop of `buildPolylines`,
over one track index. -/
def buildStep (tracks : List RTrack) (nodeMap : NodeMap)
    (acc : List Polyline × List Bool) (i : ℕ) : List Polyline × List Bool :=
  let polylines := acc.1
  let visited := acc.2
  if visited.getD i true then (polylines, visited)
  else
    match tracks.get? i with
    | none => (polylines, visited)
    | some t0 =>
      let visited1 := visited.set i true
      let width := if t0.width = 0 then DEFAULT_TRACE_WIDTH_MM else t0.width
      let pv1 := extendPolyline tracks nodeMap true [t0.start, t0.stop] visited1
      let pv2 := extendPolyline tracks nodeMap false pv1.1 pv1.2
      let points := simplifyPolyline (dedupePoints pv2.1) 2 (1 / 10000)
      if 2 ≤ points.length then (polylines ++ [⟨points, width⟩], pv2.2)
      else (polylines, pv2.2)

/-- `buildPolylines` from polygonizer.ts. -/
def buildPolylines (tracks : List RTrack) : List Polyline :=
  if tracks.isEmpty then []
  else
    ((List.range tracks.length).foldl (buildStep tracks (buildNodeMap tracks))
      ([], List.replicate tracks.length false)).1

/-- The successive (polylines, visited) states of the `buildPolylines`
loop, used to observe which tracks each iteration consumes. -/
def buildStates (tracks : List RTrack) : List (List Polyline × List Bool) :=
  (List.range tracks.length).scanl (buildStep tracks (buildNodeMap tracks))
    ([], List.replicate tracks.length false)

/-- The indices newly marked visited between two visited states. -/
def newlyVisited (before after : List Bool) : List ℕ :=
  (List.range after.length).filter
    (fun j => after.getD j false && !(before.getD j false))

/-- The per-iteration groups of consumed track indices of the
`buildPolylines` run. -/
def consumedGroups (tracks : List RTrack) : List (List ℕ) :=
  ((buildStates tracks).zip ((buildStates tracks).drop 1)).map
    (fun p => newlyVisited p.1.2 p.2.2)

def leftNormal (d : RVec) : RVec := ⟨-d.y, d.x⟩

def rightNormal (d : RVec) : RVec := ⟨d.y, -d.x⟩

def addV (a b : RVec) : RVec := ⟨a.x + b.x, a.y + b.y⟩

def scaleV (v : RVec) (s : ℝ) : RVec := ⟨v.x * s, v.y * s⟩

/-- The per-segment unit directions of `strokePolyline` (zero for
segments shorter than 1e-9). -/
def segDirsOf (points : List RVec) : List RVec :=
  (points.zip (points.drop 1)).map (fun pq =>
    let dx := pq.2.x - pq.1.x
    let dy := pq.2.y - pq.1.y
    let len := hypotR dx dy
    if len < 1 / 1000000000 then (⟨0, 0⟩ : RVec) else ⟨dx / len, dy / len⟩)

/-- `computeMiter` from `strokePolyline`. -/
def computeMiter (dPrev dNext : RVec) (isLeft : Bool) (MITER_LIMIT : ℝ) : RVec :=
  let nPrev := if isLeft then leftNormal dPrev else rightNormal dPrev
  let nNext := if isLeft then leftNormal dNext else rightNormal dNext
  let mx0 := nPrev.x + nNext.x
  let my0 := nPrev.y + nNext.y
  let mLen := hypotR mx0 my0
  if mLen < 1 / 1000000 then nPrev
  else
    let mx := mx0 / mLen
    let my := my0 / mLen
    let dot := mx * nPrev.x + my * nPrev.y
    if |dot| < 1 / 1000 then nPrev
    else
      let scaleFactor := 1 / dot
      if MITER_LIMIT < |scaleFactor| then scaleV ⟨mx, my⟩ (jsSign scaleFactor * MITER_LIMIT)
      else scaleV ⟨mx, my⟩ scaleFactor

def computeSignedArea (points : List RVec) : ℝ :=
  ((points.zip (points.drop 1 ++ points.take 1)).map
    (fun pq => (pq.2.x - pq.1.x) * (pq.2.y + pq.1.y))).sum / 2

def ensureClockwise (points : List RVec) : List RVec :=
  if points.length < 3 then points
  else if computeSignedArea points < 0 then points
  else points.reverse

def ensureCounterClockwise (points : List RVec) : List RVec :=
  if points.length < 3 then points
  else if 0 < computeSignedArea points then points
  else points.reverse

/-- `strokePolyline` from polygonizer.ts. -/
def strokePolyline (points : List RVec) (width : ℝ) : Option RPolygon :=
  if points.length < 2 ∨ width ≤ 0 then none
  else
    let n := points.length - 1
    let half := width / 2
    let CAP_SEGMENTS : ℕ := 8
    let MITER_LIMIT : ℝ := 4
    let startPt := points.headD ⟨0, 0⟩
    let endPt := points.getLastD ⟨0, 0⟩
    let segDirs := segDirsOf points
    let leftBody : List RVec :=
      [addV startPt (scaleV (leftNormal (segDirs.headD ⟨0, 0⟩)) half)]
      ++ ((List.range (n - 1)).map (fun j =>
            addV (points.getD (j + 1) ⟨0, 0⟩)
              (scaleV (computeMiter (segDirs.getD j ⟨0, 0⟩) (segDirs.getD (j + 1) ⟨0, 0⟩)
                true MITER_LIMIT) half)))
      ++ [addV endPt (scaleV (leftNormal (segDirs.getLastD ⟨0, 0⟩)) half)]
    let rightBody : List RVec :=
      [addV startPt (scaleV (rightNormal (segDirs.headD ⟨0, 0⟩)) half)]
      ++ ((List.range (n - 1)).map (fun j =>
            addV (points.getD (j + 1) ⟨0, 0⟩)
              (scaleV (computeMiter (segDirs.getD j ⟨0, 0⟩) (segDirs.getD (j + 1) ⟨0, 0⟩)
                false MITER_LIMIT) half)))
      ++ [addV endPt (scaleV (rightNormal (segDirs.getLastD ⟨0, 0⟩)) half)]
    let startAngle := jsAtan2 (rightNormal (segDirs.headD ⟨0, 0⟩)).y
      (rightNormal (segDirs.headD ⟨0, 0⟩)).x
    let startCapOuter : List RVec :=
      (List.range (CAP_SEGMENTS + 1)).map (fun (i : ℕ) =>
        let theta := startAngle + ((i : ℝ) / (CAP_SEGMENTS : ℝ)) * Real.pi
        ⟨startPt.x + Real.cos theta * half, startPt.y + Real.sin theta * half⟩)
    let endAngle := jsAtan2 (leftNormal (segDirs.getLastD ⟨0, 0⟩)).y
      (leftNormal (segDirs.getLastD ⟨0, 0⟩)).x
    let endCapOuter : List RVec :=
      (List.range (CAP_SEGMENTS + 1)).map (fun (i : ℕ) =>
        let theta := endAngle + ((i : ℝ) / (CAP_SEGMENTS : ℝ)) * Real.pi
        ⟨endPt.x + Real.cos theta * half, endPt.y + Real.sin theta * half⟩)
    let finalOuter :=
      leftBody ++ (endCapOuter.drop 1).dropLast
      ++ rightBody.reverse ++ ((startCapOuter.drop 1).dropLast).reverse
    if finalOuter.length < 3 then none
    else some ⟨ensureClockwise (dedupePoints finalOuter), []⟩

/-- `approximateCircle` from polygonizer.ts. -/
def approximateCircle (center : RVec) (radiusMm : ℝ) (segments : ℕ) : RPolygon :=
  ⟨(List.range segments).map (fun (i : ℕ) =>
      let theta := -(((i : ℝ) / (segments : ℝ)) * Real.pi * 2)
      ⟨center.x + Real.cos theta * radiusMm, center.y + Real.sin theta * radiusMm⟩),
   []⟩

/-- `polygonizePrimitives` from polygonizer.ts. -/
def polygonizePrimitives (prims : RPrimitives) : List RPolygon :=
  let trackPolys :=
    if prims.tracks.isEmpty then []
    else (buildPolylines prims.tracks).filterMap (fun pl => strokePolyline pl.points pl.width)
  let flashPolys := prims.flashes.map (fun f =>
    let d := if 0 < f.diameterMm then f.diameterMm else DEFAULT_FLASH_DIAM_MM
    approximateCircle f.position (d / 2) DEFAULT_CIRCLE_SEGMENTS)
  let regionPolys := prims.regions.filterMap (fun r =>
    if r.boundary.length < 3 then none
    else some (⟨ensureClockwise r.boundary, r.holes.map ensureCounterClockwise⟩ : RPolygon))
  trackPolys ++ flashPolys ++ regionPolys

/-! ## src/geometry/outline-extractor.ts and src/geometry/stackup-builder.ts -/

inductive PcbSide where
  | top | bottom
deriving DecidableEq

inductive PcbLayerKind where
  | copper | soldermask | silkscreen | outline
deriving DecidableEq

structure LayerGeometry where
  name : String
  side : Option PcbSide
  kind : PcbLayerKind
  polygons : List RPolygon

structure DrillHole where
  x : ℝ
  y : ℝ
  diameter : ℝ
  plated : Bool

structure ParsedGerberLayer where
  name : String
  role : String
  primitives : RPrimitives

structure ParsedDrillData where
  name : String
  holes : List DrillHole

structure BuildPcbGeometryParams where
  parsedGerbers : List ParsedGerberLayer
  parsedDrills : List ParsedDrillData
  boardThicknessMm : ℝ

structure PcbModelGeometry where
  widthMm : ℝ
  heightMm : ℝ
  thicknessMm : ℝ
  copperLayers : List LayerGeometry
  maskLayers : List LayerGeometry
  silkLayers : List LayerGeometry
  outline : Option LayerGeometry
  drills : List DrillHole

def DEFAULT_BOARD_WIDTH_MM : ℝ := 100
def DEFAULT_BOARD_HEIGHT_MM : ℝ := 50

/-- All the points `deriveOutlineFromLayers` feeds to `updateBounds`. -/
def outlinePoints (layers : List ParsedGerberLayer) : List RVec :=
  layers.flatMap (fun l =>
    l.primitives.tracks.flatMap (fun t => [t.start, t.stop])
    ++ l.primitives.arcs.flatMap (fun a => [a.start, a.stop, a.center])
    ++ l.primitives.flashes.map (fun f => f.position)
    ++ l.primitives.regions.flatMap (fun r => r.boundary ++ r.holes.flatten))

/-- `deriveOutlineFromLayers` from outline-extractor.ts.  A min/max fold
over the visited points replaces updating from infinities; the
`isFinite` guards cannot fire over `ℝ`. -/
def deriveOutlineFromLayers (layers : List ParsedGerberLayer) : Option RPolygon :=
  match outlinePoints layers with
  | [] => none
  | p :: rest =>
    let minX := rest.foldl (fun m q => min m q.x) p.x
    let maxX := rest.foldl (fun m q => max m q.x) p.x
    let minY := rest.foldl (fun m q => min m q.y) p.y
    let maxY := rest.foldl (fun m q => max m q.y) p.y
    some ⟨[⟨minX, minY⟩, ⟨maxX, minY⟩, ⟨maxX, maxY⟩, ⟨minX, maxY⟩], []⟩

/-- `createRectanglePolygon` from outline-extractor.ts. -/
def createRectanglePolygon (widthMm heightMm : ℝ) : RPolygon :=
  ⟨[⟨0, 0⟩, ⟨widthMm, 0⟩, ⟨widthMm, heightMm⟩, ⟨0, heightMm⟩], []⟩

/-- `roleToSideAndKind` from stackup-builder.ts. -/
def roleToSideAndKind (layer : ParsedGerberLayer) : Option PcbSide × Option PcbLayerKind :=
  let role := layer.role.toLower
  if role = "top_copper" then (some .top, some .copper)
  else if role = "bottom_copper" then (some .bottom, some .copper)
  else if role = "inner_copper" then (none, some .copper)
  else if role = "top_mask" then (some .top, some .soldermask)
  else if role = "bottom_mask" then (some .bottom, some .soldermask)
  else if role = "top_silk" then (some .top, some .silkscreen)
  else if role = "bottom_silk" then (some .bottom, some .silkscreen)
  else if role = "outline" then (none, some .outline)
  else (none, none)

/-- `computeBoundingBox` (width and height) from stackup-builder.ts. -/
def computeBoundingBoxWH (poly : RPolygon) : ℝ × ℝ :=
  match poly.outer with
  | [] => (DEFAULT_BOARD_WIDTH_MM, DEFAULT_BOARD_HEIGHT_MM)
  | p :: rest =>
    let minX := rest.foldl (fun m q => min m q.x) p.x
    let maxX := rest.foldl (fun m q => max m q.x) p.x
    let minY := rest.foldl (fun m q => min m q.y) p.y
    let maxY := rest.foldl (fun m q => max m q.y) p.y
    (maxX - minX, maxY - minY)

/-- `flattenDrills` from stackup-builder.ts. -/
def flattenDrills (parsedDrills : List ParsedDrillData) : List DrillHole :=
  parsedDrills.flatMap (fun d => d.holes)

/-- The per-layer body of the routing loop of `buildPcbGeometry`,
accumulating (copper, mask, silk) layer lists. -/
def routeLayer (boardRectPoly : RPolygon)
    (acc : List LayerGeometry × List LayerGeometry × List LayerGeometry)
    (layer : ParsedGerberLayer) :
    List LayerGeometry × List LayerGeometry × List LayerGeometry :=
  let lk := roleToSideAndKind layer
  match lk.2, lk.1 with
  | some kind, some side =>
    let polys0 := polygonizePrimitives layer.primitives
    let polys1 := polys0.filter (fun p => 3 ≤ p.outer.length)
    let polys2 := polys1.filter (fun p => 3 ≤ p.outer.length)
    let polys := if polys2.isEmpty then [boardRectPoly] else polys2
    let layerGeom : LayerGeometry := ⟨layer.name, some side, kind, polys⟩
    if kind = .copper then (acc.1 ++ [layerGeom], acc.2.1, acc.2.2)
    else if kind = .soldermask then (acc.1, acc.2.1 ++ [layerGeom], acc.2.2)
    else if kind = .silkscreen then (acc.1, acc.2.1, acc.2.2 ++ [layerGeom])
    else acc
  | _, _ => acc

/-- `buildPcbGeometry` from stackup-builder.ts. -/
def buildPcbGeometry (params : BuildPcbGeometryParams) : PcbModelGeometry :=
  let derived := deriveOutlineFromLayers params.parsedGerbers
  let whOutline : ℝ × ℝ × RPolygon :=
    match derived with
    | some op =>
      if 2 ≤ op.outer.length then
        let wh := computeBoundingBoxWH op
        (wh.1, wh.2, op)
      else
        (DEFAULT_BOARD_WIDTH_MM, DEFAULT_BOARD_HEIGHT_MM,
          createRectanglePolygon DEFAULT_BOARD_WIDTH_MM DEFAULT_BOARD_HEIGHT_MM)
    | none =>
      (DEFAULT_BOARD_WIDTH_MM, DEFAULT_BOARD_HEIGHT_MM,
        createRectanglePolygon DEFAULT_BOARD_WIDTH_MM DEFAULT_BOARD_HEIGHT_MM)
  let widthMm := whOutline.1
  let heightMm := whOutline.2.1
  let boardRectPoly := whOutline.2.2
  let routed := params.parsedGerbers.foldl (routeLayer boardRectPoly) ([], [], [])
  let copperLayers := routed.1
  let maskLayers := routed.2.1
  let silkLayers := routed.2.2
  let copper2 :=
    if copperLayers.any (fun l => l.side == some .top) then copperLayers
    else copperLayers ++ [⟨"auto_top_copper", some .top, .copper, [boardRectPoly]⟩]
  let copper3 :=
    if copper2.any (fun l => l.side == some .bottom) then copper2
    else copper2 ++ [⟨"auto_bottom_copper", some .bottom, .copper, [boardRectPoly]⟩]
  let outlineLayer : LayerGeometry := ⟨"outline", none, .outline, [boardRectPoly]⟩
  ⟨widthMm, heightMm, params.boardThicknessMm, copper3, maskLayers, silkLayers,
    some outlineLayer, flattenDrills params.parsedDrills⟩

noncomputable def emptyParams : BuildPcbGeometryParams := ⟨[], [], 8 / 5⟩

/-- Sum of a function over adjacent pairs; the recursive counterpart of
the zip in `computeSignedArea`. -/
def adjSum (f : RVec → RVec → ℝ) : List RVec → ℝ
  | [] => 0
  | [_] => 0
  | p :: q :: rest => f p q + adjSum f (q :: rest)

/-- The cyclic sum underlying `computeSignedArea`. -/
def cycSum (f : RVec → RVec → ℝ) (l : List RVec) : ℝ :=
  ((l.zip (l.drop 1 ++ l.take 1)).map (fun pq => f pq.1 pq.2)).sum

end

/-! ## Theorems -/

/-- C8: `classifyFiles` partitions its input: the three buckets have sizes
summing to the input size, and the buckets are exactly the order-preserving
filters of the input by the drill/Gerber predicates, so every entry lands in
exactly one bucket and none is dropped. -/
theorem classifyFiles_partitions (entries : List ZipEntry) (hints : Option LayerHints) :
    (classifyFiles entries hints).gerbers.length +
      (classifyFiles entries hints).drills.length +
      (classifyFiles entries hints).ignored.length = entries.length
    ∧ (classifyFiles entries hints).drills.map (·.rawEntry) =
        entries.filter (fun e => isDrillFile e.name.toLower)
    ∧ (classifyFiles entries hints).gerbers.map (·.rawEntry) =
        entries.filter (fun e => !isDrillFile e.name.toLower && isLikelyGerber e.name.toLower)
    ∧ (classifyFiles entries hints).ignored =
        entries.filter (fun e => !isDrillFile e.name.toLower && !isLikelyGerber e.name.toLower) := by
  induction entries with
  | nil => simp [classifyFiles]
  | cons e rest ih =>
    obtain ⟨h1, h2, h3, h4⟩ := ih
    by_cases hd : isDrillFile e.name.toLower = true
    · refine ⟨?_, ?_, ?_, ?_⟩
      · simp only [classifyFiles, hd, if_true, List.length_cons]
        omega
      · simp [classifyFiles, hd, h2]
      · simp [classifyFiles, hd, h3]
      · simp [classifyFiles, hd, h4]
    · by_cases hg : isLikelyGerber e.name.toLower = true
      · refine ⟨?_, ?_, ?_, ?_⟩
        · simp only [classifyFiles, hd, hg, if_true, if_false, Bool.false_eq_true,
            List.length_cons]
          omega
        · simp [classifyFiles, hd, hg, h2]
        · simp [classifyFiles, hd, hg, h3]
        · simp [classifyFiles, hd, hg, h4]
      · refine ⟨?_, ?_, ?_, ?_⟩
        · simp only [classifyFiles, hd, hg, if_true, if_false, Bool.false_eq_true,
            List.length_cons]
          omega
        · simp [classifyFiles, hd, hg, h2]
        · simp [classifyFiles, hd, hg, h3]
        · simp [classifyFiles, hd, hg, h4]

theorem filterMap_pair_fst (l : List QPolygon) :
    (l.filterMap (fun p => (polygonToMartinez p).map (fun c => (p, c)))).map Prod.fst
      = l.filter (fun p => (polygonToMartinez p).isSome) := by
  induction l with
  | nil => rfl
  | cons p rest ih =>
    cases h : polygonToMartinez p <;>
      simp [List.filterMap_cons, List.filter_cons, h, ih]

theorem unionReduce_all_fail (e : MartinezEngine) (hfail : EngineAllFails e) :
    ∀ (rest : List PolygonCoords) (acc : JSVal), rest ≠ [] →
      unionReduce e acc rest = none ∨
        ∃ r, unionReduce e acc rest = some r ∧ martinezToPolygons r = [] := by
  intro rest
  induction rest with
  | nil => intro acc h; exact absurd rfl h
  | cons c rest ih =>
    intro acc _
    by_cases ht : (safeBooleanOp e .union acc (coordsToJS c)).truthy = false
    · left
      simp [unionReduce, ht]
    · have htt : (safeBooleanOp e .union acc (coordsToJS c)).truthy = true := by
        revert ht; cases (safeBooleanOp e .union acc (coordsToJS c)).truthy <;> simp
      have hmz : martinezToPolygons (safeBooleanOp e .union acc (coordsToJS c)) = [] := by
        unfold safeBooleanOp at htt ⊢
        cases he : e .union acc (coordsToJS c) with
        | none => rw [he] at htt; simp [JSVal.truthy] at htt
        | some v => rw [he] at htt; exact hfail _ _ _ _ he htt
      cases rest with
      | nil =>
        right
        exact ⟨_, by simp [unionReduce, ht], hmz⟩
      | cons c2 rest2 =>
        have := ih (safeBooleanOp e .union acc (coordsToJS c)) (by simp)
        rcases this with h | ⟨r, hr, hrz⟩
        · left
          simpa [unionReduce, ht] using h
        · right
          exact ⟨r, by simpa [unionReduce, ht] using hr, hrz⟩

theorem safeBooleanOp_martinez_nil (e : MartinezEngine) (hfail : EngineAllFails e)
    (op : BoolOp) (a b : JSVal) :
    martinezToPolygons (safeBooleanOp e op a b) = [] := by
  unfold safeBooleanOp
  cases he : e op a b with
  | none => rfl
  | some v =>
    by_cases ht : v.truthy = true
    · exact hfail _ _ _ _ he ht
    · have : v.truthy = false := by revert ht; cases v.truthy <;> simp
      unfold martinezToPolygons
      rw [this]
      simp

theorem unionPolygons_all_fail (e : MartinezEngine) (hfail : EngineAllFails e)
    (polys : List QPolygon) :
    unionPolygons e polys = polys.filter (fun p => (polygonToMartinez p).isSome) := by
  by_cases hp : polys.isEmpty
  · rw [List.isEmpty_iff] at hp
    subst hp
    rfl
  · cases hpairs : polys.filterMap (fun p => (polygonToMartinez p).map (fun c => (p, c))) with
    | nil =>
      have : polys.filter (fun p => (polygonToMartinez p).isSome) = [] := by
        rw [← filterMap_pair_fst, hpairs]; rfl
      simp only [unionPolygons, hp, if_false, hpairs, this]
      rfl
    | cons pc pcs =>
      have hval : (pc :: pcs).map Prod.fst = polys.filter (fun p => (polygonToMartinez p).isSome) := by
        rw [← filterMap_pair_fst, hpairs]
      cases pcs with
      | nil =>
        simp only [unionPolygons, hp, if_false, hpairs, List.map_cons, List.map_nil,
          List.isEmpty_cons, List.length_cons, List.length_nil, if_true, if_false] at *
        simpa using hval
      | cons pc2 pcs2 =>
        have hfailres := unionReduce_all_fail e hfail
          ((pc2 :: pcs2).map Prod.snd) (coordsToJS pc.2) (by simp)
        simp only [unionPolygons, hp, if_false, hpairs, List.map_cons, List.isEmpty_cons,
          List.length_cons, List.length_nil, List.length_map, if_false]
        rcases hfailres with h | ⟨r, hr, hrz⟩
        · simp only [List.map_cons] at h
          rw [h]
          simpa using hval
        · simp only [List.map_cons] at hr
          rw [hr]
          simpa [hrz] using hval

theorem subtractPolygons_all_fail (e : MartinezEngine) (hfail : EngineAllFails e)
    (a b : List QPolygon) (hb : b ≠ []) :
    subtractPolygons e a b = a.filter (fun p => (polygonToMartinez p).isSome) := by
  by_cases ha : a.isEmpty
  · rw [List.isEmpty_iff] at ha
    subst ha
    rfl
  · have hbne : b.isEmpty = false := by
      cases b with
      | nil => exact absurd rfl hb
      | cons x xs => rfl
    cases hpairs : a.filterMap (fun p => (polygonToMartinez p).map (fun c => (p, c))) with
    | nil =>
      have : a.filter (fun p => (polygonToMartinez p).isSome) = [] := by
        rw [← filterMap_pair_fst, hpairs]; rfl
      simp only [subtractPolygons, ha, hbne, if_false, hpairs, this]
      rfl
    | cons pc pcs =>
      have hval : (pc :: pcs).map Prod.fst = a.filter (fun p => (polygonToMartinez p).isSome) := by
        rw [← filterMap_pair_fst, hpairs]
      cases hbc : b.filterMap polygonToMartinez with
      | nil =>
        simp only [subtractPolygons, ha, hbne, if_false, hpairs, hbc, List.map_cons,
          List.isEmpty_cons, List.isEmpty_nil, if_true]
        simpa using hval
      | cons bc bcs =>
        simp only [subtractPolygons, ha, hbne, if_false, hpairs, hbc, List.map_cons,
          List.isEmpty_cons]
        -- case on the a-side union fold
        cases pcs with
        | nil =>
          -- single a polygon: the fold is trivially `some`
          simp only [List.map_nil, unionReduce]
          cases bcs with
          | nil =>
            simp only [unionReduce]
            simpa [safeBooleanOp_martinez_nil e hfail] using hval
          | cons bc2 bcs2 =>
            rcases unionReduce_all_fail e hfail ((bc2 :: bcs2)) (coordsToJS bc) (by simp) with h | ⟨r, hr, _⟩
            · rw [h]
              simpa using hval
            · rw [hr]
              simpa [safeBooleanOp_martinez_nil e hfail] using hval
        | cons pc2 pcs2 =>
          simp only [List.map_cons]
          rcases unionReduce_all_fail e hfail ((pc2 :: pcs2).map (·.2)) (coordsToJS pc.2) (by simp) with h | ⟨r, hr, _⟩
          · simp only [List.map_cons] at h
            rw [h]
            simpa using hval
          · simp only [List.map_cons] at hr
            rw [hr]
            cases bcs with
            | nil =>
              simp only [unionReduce]
              simpa [safeBooleanOp_martinez_nil e hfail] using hval
            | cons bc2 bcs2 =>
              rcases unionReduce_all_fail e hfail ((bc2 :: bcs2)) (coordsToJS bc) (by simp) with h3 | ⟨r2, hr2, _⟩
              · rw [h3]
                simpa using hval
              · rw [hr2]
                simpa [safeBooleanOp_martinez_nil e hfail] using hval

theorem intersectPolygons_all_fail (e : MartinezEngine) (hfail : EngineAllFails e)
    (a b : List QPolygon) :
    intersectPolygons e a b = [] := by
  by_cases hab : (a.isEmpty || b.isEmpty) = true
  · simp only [intersectPolygons, hab, if_true]
  · simp only [intersectPolygons, hab, if_false, Bool.false_eq_true]
    cases hac : a.filterMap polygonToMartinez with
    | nil => simp
    | cons ac acs =>
      cases hbc : b.filterMap polygonToMartinez with
      | nil => simp
      | cons bc bcs =>
        simp only [List.isEmpty_cons, if_false, Bool.false_eq_true]
        cases acs with
        | nil =>
          simp only [unionReduce]
          cases bcs with
          | nil =>
            simp only [unionReduce]
            simp [safeBooleanOp_martinez_nil e hfail]
          | cons bc2 bcs2 =>
            rcases unionReduce_all_fail e hfail (bc2 :: bcs2) (coordsToJS bc) (by simp) with h | ⟨r, hr, _⟩
            · rw [h]
            · rw [hr]
              simp [safeBooleanOp_martinez_nil e hfail]
        | cons ac2 acs2 =>
          rcases unionReduce_all_fail e hfail (ac2 :: acs2) (coordsToJS ac) (by simp) with h | ⟨r, hr, _⟩
          · rw [h]
          · rw [hr]
            cases bcs with
            | nil =>
              simp only [unionReduce]
              simp [safeBooleanOp_martinez_nil e hfail]
            | cons bc2 bcs2 =>
              rcases unionReduce_all_fail e hfail (bc2 :: bcs2) (coordsToJS bc) (by simp) with h3 | ⟨r2, hr2, _⟩
              · rw [h3]
              · rw [hr2]
                simp [safeBooleanOp_martinez_nil e hfail]

/-- C2 counterexample: with an engine whose every call throws,
`intersectPolygons` on two overlapping valid squares does NOT return the
first operand's (degeneracy-filtered) polygons, contradicting the claim. -/
theorem intersectPolygons_failure_not_first_operand :
    intersectPolygons engineAlwaysThrows [unitSquareQ] [unitSquareQ] ≠
      [unitSquareQ].filter (fun p => (polygonToMartinez p).isSome) := by
  decide

/-- C2 (amended): if every internal call to the clipping engine fails
(throws, or yields a falsy or malformed value), no error propagates:
`unionPolygons` returns its degeneracy-filtered input, `subtractPolygons`
returns the first operand's degeneracy-filtered polygons (whenever the
second operand list is nonempty, so that the engine is consulted at all),
and `intersectPolygons` returns the empty list. -/
theorem booleanOps_engine_failure_contract (e : MartinezEngine) (hfail : EngineAllFails e)
    (polys a b : List QPolygon) (hb : b ≠ []) :
    unionPolygons e polys = polys.filter (fun p => (polygonToMartinez p).isSome)
    ∧ subtractPolygons e a b = a.filter (fun p => (polygonToMartinez p).isSome)
    ∧ intersectPolygons e a b = [] :=
  ⟨unionPolygons_all_fail e hfail polys,
   subtractPolygons_all_fail e hfail a b hb,
   intersectPolygons_all_fail e hfail a b⟩

/-- Witness for C2 at a concrete failing engine and concrete polygons. -/
theorem booleanOps_engine_failure_contract_witness :
    unionPolygons engineAlwaysThrows [unitSquareQ, unitSquareQ] =
        [unitSquareQ, unitSquareQ].filter (fun p => (polygonToMartinez p).isSome)
    ∧ subtractPolygons engineAlwaysThrows [unitSquareQ] [unitSquareQ] =
        [unitSquareQ].filter (fun p => (polygonToMartinez p).isSome)
    ∧ intersectPolygons engineAlwaysThrows [unitSquareQ] [unitSquareQ] = [] :=
  booleanOps_engine_failure_contract engineAlwaysThrows
    (fun _ _ _ r h => absurd h (by simp [engineAlwaysThrows]))
    [unitSquareQ, unitSquareQ] [unitSquareQ] [unitSquareQ] (by simp)

/-- C3 (evaluation at the failing input): with the clipping engine
correctly returning the empty multi-polygon for the self-difference,
`subtractPolygons A []` returns `A` unchanged as claimed, but
`subtractPolygons A A` returns the original `A` (the empty clipper result
is conflated with engine failure by the `result.length ? result : aValid`
fallback) instead of the claimed empty list. -/
theorem subtractPolygons_self_not_empty :
    subtractPolygons engineEmptyResult [unitSquareQ] [] = [unitSquareQ]
    ∧ subtractPolygons engineEmptyResult [unitSquareQ] [unitSquareQ] = [unitSquareQ]
    ∧ ([unitSquareQ] : List QPolygon) ≠ [] := by
  refine ⟨by decide, by decide, by decide⟩

/-! ### Gerber parser lemmas and claims -/

theorem digit_not_sign {c : Char} (h : c.isDigit = true) :
    (!(c == '+') && !(c == '-')) = true := by
  by_cases h1 : c = '+'
  · subst h1; exact absurd h (by decide)
  · by_cases h2 : c = '-'
    · subst h2; exact absurd h (by decide)
    · simp [h1, h2]

theorem takeWhile_digits_eq_self {ds : List Char} (h : ∀ c ∈ ds, c.isDigit = true) :
    ds.takeWhile Char.isDigit = ds := by
  induction ds with
  | nil => rfl
  | cons c rest ih =>
    rw [List.takeWhile_cons]
    rw [h c (by simp)]
    simp only [if_true]
    rw [ih (fun c hc => h c (by simp [hc]))]

theorem filter_signs_of_digits {ds : List Char} (h : ∀ c ∈ ds, c.isDigit = true) :
    ds.filter (fun c => !(c == '+') && !(c == '-')) = ds :=
  List.filter_eq_self.mpr (fun c hc => digit_not_sign (h c hc))

theorem decodeCoord_digits (s : ParserState) (ds : List Char) (hne : ds ≠ [])
    (hdig : ∀ c ∈ ds, c.isDigit = true) :
    decodeCoord (String.mk ds) s = (digitsToNat ds : ℚ) / 10 ^ s.fmtDec * s.unitScale
    ∧ decodeCoord (String.mk ('+' :: ds)) s
        = (digitsToNat ds : ℚ) / 10 ^ s.fmtDec * s.unitScale
    ∧ decodeCoord (String.mk ('-' :: ds)) s
        = -((digitsToNat ds : ℚ) / 10 ^ s.fmtDec * s.unitScale) := by
  obtain ⟨c0, rest, rfl⟩ : ∃ c0 rest, ds = c0 :: rest := by
    cases ds with
    | nil => exact absurd rfl hne
    | cons a b => exact ⟨a, b, rfl⟩
  have hparse : jsParseIntNat (c0 :: rest) = some (digitsToNat (c0 :: rest)) := by
    unfold jsParseIntNat
    rw [takeWhile_digits_eq_self hdig]
    simp
  have hfilter : (c0 :: rest).filter (fun c => !(c == '+') && !(c == '-')) = c0 :: rest :=
    filter_signs_of_digits hdig
  have hc0 : c0.isDigit = true := hdig c0 (by simp)
  have hc0m : ¬ c0 = '-' := by
    intro h; subst h; exact absurd hc0 (by decide)
  refine ⟨?_, ?_, ?_⟩
  · unfold decodeCoord
    simp only [String.data]
    rw [hfilter, hparse]
    simp only [List.head?_cons, Option.some.injEq, hc0m, if_false]
    ring
  · unfold decodeCoord
    simp only [String.data, List.filter_cons, List.head?_cons, Option.some.injEq]
    rw [show ((!(('+' : Char) == '+') && !(('+' : Char) == '-'))) = false from rfl]
    simp only [Bool.false_eq_true, if_false]
    have hfilter2 := hfilter
    rw [List.filter_cons] at hfilter2
    rw [hfilter2, hparse]
    rw [if_neg (show ¬ ('+' : Char) = '-' from by decide)]
    ring
  · unfold decodeCoord
    simp only [String.data, List.filter_cons, List.head?_cons, Option.some.injEq]
    rw [show ((!(('-' : Char) == '+') && !(('-' : Char) == '-'))) = false from rfl]
    simp only [Bool.false_eq_true, if_false]
    have hfilter2 := hfilter
    rw [List.filter_cons] at hfilter2
    rw [hfilter2, hparse]
    rw [if_pos trivial]
    ring

theorem handleCommandLine_unitScale (line : String) (s : ParserState) :
    (handleCommandLine line s).unitScale = s.unitScale := by
  unfold handleCommandLine processCoords
  repeat' first
    | rfl
    | split

theorem handleParameterBlock_unitScale (block : String) (s : ParserState) :
    (handleParameterBlock block s).unitScale = s.unitScale ∨
    (handleParameterBlock block s).unitScale = 1 ∨
    (handleParameterBlock block s).unitScale = 254 / 10 := by
  unfold handleParameterBlock
  dsimp only
  repeat' first
    | (left; rfl)
    | (right; left; rfl)
    | (right; right; rfl)
    | split

theorem processLine_unitScale (s : ParserState) (l : String) :
    (processLine s l).unitScale = s.unitScale ∨
    (processLine s l).unitScale = 1 ∨
    (processLine s l).unitScale = 254 / 10 := by
  unfold processLine
  dsimp only
  repeat' first
    | (exact Or.inl rfl)
    | (exact handleParameterBlock_unitScale _ _)
    | (exact Or.inl (handleCommandLine_unitScale _ _))
    | split

theorem foldl_processLine_unitScale (lines : List String) :
    ∀ s : ParserState, s.unitScale = 1 ∨ s.unitScale = 254 / 10 →
      ((lines.foldl processLine s).unitScale = 1 ∨
       (lines.foldl processLine s).unitScale = 254 / 10) := by
  induction lines with
  | nil => intro s hs; exact hs
  | cons l rest ih =>
    intro s hs
    rw [List.foldl_cons]
    refine ih (processLine s l) ?_
    rcases processLine_unitScale s l with h | h | h
    · rw [h]; exact hs
    · exact Or.inl h
    · exact Or.inr h

/-- C5: the Gerber coordinate decoder maps a signed integer literal to
sign times (digits divided by 10 to the fmtDec) times unitScale, where
fmtDec defaults to 4 and the unit scale reachable from the format/unit
statements is always 1 (millimeters) or 25.4 (inches). -/
theorem decodeCoord_fixed_point_spec :
    (∀ (s : ParserState) (ds : List Char), ds ≠ [] → (∀ c ∈ ds, c.isDigit = true) →
      decodeCoord (String.mk ds) s = (digitsToNat ds : ℚ) / 10 ^ s.fmtDec * s.unitScale
      ∧ decodeCoord (String.mk ('+' :: ds)) s
          = (digitsToNat ds : ℚ) / 10 ^ s.fmtDec * s.unitScale
      ∧ decodeCoord (String.mk ('-' :: ds)) s
          = -((digitsToNat ds : ℚ) / 10 ^ s.fmtDec * s.unitScale))
    ∧ initParserState.fmtDec = 4
    ∧ (∀ lines : List String,
        (lines.foldl processLine initParserState).unitScale = 1 ∨
        (lines.foldl processLine initParserState).unitScale = 254 / 10) :=
  ⟨decodeCoord_digits, rfl,
   fun lines => foldl_processLine_unitScale lines initParserState (Or.inl rfl)⟩

/-- Witness for C5 on the literal 12345 with the default format state. -/
theorem decodeCoord_fixed_point_spec_witness :
    decodeCoord (String.mk ['1', '2', '3', '4', '5']) initParserState
        = (digitsToNat ['1', '2', '3', '4', '5'] : ℚ) / 10 ^ initParserState.fmtDec
            * initParserState.unitScale
    ∧ decodeCoord (String.mk ('-' :: ['1', '2', '3', '4', '5'])) initParserState
        = -((digitsToNat ['1', '2', '3', '4', '5'] : ℚ) / 10 ^ initParserState.fmtDec
            * initParserState.unitScale) :=
  ⟨(decodeCoord_fixed_point_spec.1 initParserState ['1', '2', '3', '4', '5']
      (by decide) (by decide)).1,
   (decodeCoord_fixed_point_spec.1 initParserState ['1', '2', '3', '4', '5']
      (by decide) (by decide)).2.2⟩

theorem jsStartsWith_MO_not_FS {body : String} (h : jsStartsWith body "MO" = true) :
    jsStartsWith body "FS" = false := by
  unfold jsStartsWith at h ⊢
  rw [List.isPrefixOf_iff_prefix] at h
  obtain ⟨t, ht⟩ := h
  have : body.data = 'M' :: 'O' :: t := by
    rw [← ht]; rfl
  rw [this]
  rfl

/-- The full state produced by the MO branch when the unit changes. -/
theorem handleParameterBlock_MO_change (block : String) (s : ParserState)
    (hmo : jsStartsWith (paramBody block) "MO" = true)
    (hchange : moNewScale (paramBody block) s.unitScale ≠ s.unitScale) :
    handleParameterBlock block s =
      { s with
        apertures := s.apertures.map (fun p =>
          (p.1, scaleAperture (moNewScale (paramBody block) s.unitScale / s.unitScale) p.2))
        unitScale := moNewScale (paramBody block) s.unitScale } := by
  unfold handleParameterBlock
  dsimp only
  rw [jsStartsWith_MO_not_FS hmo]
  simp only [Bool.false_eq_true, if_false, hmo, if_true]
  unfold moNewScale at hchange ⊢
  by_cases hmm : containsSub (paramBody block) "MOMM" = true
  · simp only [hmm, if_true] at hchange ⊢
    rw [if_pos hchange]
  · simp only [hmm, Bool.false_eq_true, if_false] at hchange ⊢
    by_cases hin : containsSub (paramBody block) "MOIN" = true
    · simp only [hin, if_true] at hchange ⊢
      rw [if_pos hchange]
    · simp only [hin, Bool.false_eq_true, if_false] at hchange ⊢
      exact absurd rfl hchange

/-- C6: when an MO parameter block changes the unit scale mid-stream,
every already-defined aperture has its stored diameter, width and height
multiplied by newScale/oldScale (NaN sizes stay NaN, absent sizes stay
absent), the parser state records the new scale, and subsequent
coordinate decoding uses the new scale. -/
theorem unit_change_rescales_apertures (block : String) (s : ParserState)
    (hmo : jsStartsWith (paramBody block) "MO" = true)
    (hchange : moNewScale (paramBody block) s.unitScale ≠ s.unitScale) :
    (handleParameterBlock block s).unitScale = moNewScale (paramBody block) s.unitScale
    ∧ (handleParameterBlock block s).apertures = s.apertures.map (fun p =>
        (p.1,
          { p.2 with
            diameterMm := p.2.diameterMm.map (fun j =>
              j.map (· * (moNewScale (paramBody block) s.unitScale / s.unitScale)))
            widthMm := p.2.widthMm.map (fun j =>
              j.map (· * (moNewScale (paramBody block) s.unitScale / s.unitScale)))
            heightMm := p.2.heightMm.map (fun j =>
              j.map (· * (moNewScale (paramBody block) s.unitScale / s.unitScale))) }))
    ∧ (∀ ds : List Char, ds ≠ [] → (∀ c ∈ ds, c.isDigit = true) →
        decodeCoord (String.mk ds) (handleParameterBlock block s)
          = (digitsToNat ds : ℚ) / 10 ^ s.fmtDec * moNewScale (paramBody block) s.unitScale) := by
  rw [handleParameterBlock_MO_change block s hmo hchange]
  refine ⟨rfl, rfl, ?_⟩
  intro ds hne hdig
  have h := (decodeCoord_digits
    { s with
      apertures := s.apertures.map (fun p =>
        (p.1, scaleAperture (moNewScale (paramBody block) s.unitScale / s.unitScale) p.2))
      unitScale := moNewScale (paramBody block) s.unitScale } ds hne hdig).1
  exact h

/-- Witness for C6: an MOIN block after millimeter mode rescales the
0.3 aperture by 25.4 and switches the scale. -/
theorem unit_change_rescales_apertures_witness :
    (handleParameterBlock "%MOIN*%" mwState).unitScale
        = moNewScale (paramBody "%MOIN*%") mwState.unitScale
    ∧ (handleParameterBlock "%MOIN*%" mwState).apertures = mwState.apertures.map (fun p =>
        (p.1,
          { p.2 with
            diameterMm := p.2.diameterMm.map (fun j =>
              j.map (· * (moNewScale (paramBody "%MOIN*%") mwState.unitScale / mwState.unitScale)))
            widthMm := p.2.widthMm.map (fun j =>
              j.map (· * (moNewScale (paramBody "%MOIN*%") mwState.unitScale / mwState.unitScale)))
            heightMm := p.2.heightMm.map (fun j =>
              j.map (· * (moNewScale (paramBody "%MOIN*%") mwState.unitScale / mwState.unitScale))) })) := by
  have hch : moNewScale (paramBody "%MOIN*%") mwState.unitScale ≠ mwState.unitScale := by
    have h1 : containsSub (paramBody "%MOIN*%") "MOMM" = false := by decide
    have h2 : containsSub (paramBody "%MOIN*%") "MOIN" = true := by decide
    simp only [moNewScale, h1, h2, Bool.false_eq_true, if_false, if_true,
      mwState, initParserState]
    norm_num
  have h := unit_change_rescales_apertures "%MOIN*%" mwState (by decide) hch
  exact ⟨h.1, h.2.1⟩

theorem handleParameterBlock_region_fields (block : String) (s : ParserState) :
    (handleParameterBlock block s).regionPaths = s.regionPaths ∧
    (handleParameterBlock block s).regions = s.regions := by
  unfold handleParameterBlock
  dsimp only
  repeat' first
    | exact ⟨rfl, rfl⟩
    | split

theorem processCoords_region_fields (k : List Char) (d : Option ℕ) (s : ParserState) :
    (processCoords k d s).regions = s.regions ∧
    ((processCoords k d s).regionPaths = s.regionPaths ∨
      ((processCoords k d s).regionPaths = s.regionPaths ++ [s.currentPath] ∧
        3 ≤ s.currentPath.length)) := by
  unfold processCoords
  dsimp only
  repeat' first
    | exact ⟨rfl, Or.inl rfl⟩
    | (refine ⟨rfl, Or.inr ⟨rfl, ?_⟩⟩; assumption)
    | split

theorem close_region_regions (s : ParserState) :
    ((s.regionPaths ++ if 3 ≤ s.currentPath.length then [s.currentPath] else []) = [] →
      (handleCommandLine "G37" s).regions = s.regions)
    ∧ (∀ b hs,
        (s.regionPaths ++ if 3 ≤ s.currentPath.length then [s.currentPath] else []) = b :: hs →
        (handleCommandLine "G37" s).regions = s.regions ++ [⟨b, hs⟩])
    ∧ (handleCommandLine "G37" s).inRegion = false := by
  have h36 : ("G37" : String) ≠ "G36" := by decide
  unfold handleCommandLine
  rw [if_neg h36, if_pos rfl]
  dsimp only
  by_cases hcp : 3 ≤ s.currentPath.length
  · rw [if_pos hcp, if_pos hcp]
    refine ⟨?_, ?_, rfl⟩
    · intro h
      exact absurd h (by simp)
    · intro b hs h
      have hlen : 0 < (s.regionPaths ++ [s.currentPath]).length := by
        rw [h]; simp
      rw [if_pos hlen]
      rw [h]
      simp
  · rw [if_neg hcp, if_neg hcp]
    rw [List.append_nil]
    refine ⟨?_, ?_, rfl⟩
    · intro h
      rw [if_neg]
      rw [h]
      simp
    · intro b hs h
      have hlen : 0 < s.regionPaths.length := by rw [h]; simp
      rw [if_pos hlen]
      rw [h]
      simp

theorem finalize_region_regions (s : ParserState) (hin : s.inRegion = true) :
    ((s.regionPaths ++ if 3 ≤ s.currentPath.length then [s.currentPath] else []) = [] →
      (finalizeRegion s).regions = s.regions)
    ∧ (∀ b hs,
        (s.regionPaths ++ if 3 ≤ s.currentPath.length then [s.currentPath] else []) = b :: hs →
        (finalizeRegion s).regions = s.regions ++ [⟨b, hs⟩]) := by
  unfold finalizeRegion
  rw [if_pos hin]
  dsimp only
  by_cases hcp : 3 ≤ s.currentPath.length
  · rw [if_pos hcp, if_pos hcp]
    refine ⟨?_, ?_⟩
    · intro h
      exact absurd h (by simp)
    · intro b hs h
      have hlen : 0 < (s.regionPaths ++ [s.currentPath]).length := by
        rw [h]; simp
      rw [if_pos hlen]
      rw [h]
      simp
  · rw [if_neg hcp, if_neg hcp]
    rw [List.append_nil]
    refine ⟨?_, ?_⟩
    · intro h
      rw [if_neg]
      rw [h]
      simp
    · intro b hs h
      have hlen : 0 < s.regionPaths.length := by rw [h]; simp
      rw [if_pos hlen]
      rw [h]
      simp

theorem close_shape_inv {rp : List (List GVec)} {cp : List GVec}
    {regions regions2 : List GerberPrimitiveRegion}
    (hrp : ∀ c ∈ rp, 3 ≤ c.length)
    (hreg : ∀ r ∈ regions, 3 ≤ r.boundary.length ∧ ∀ h ∈ r.holes, 3 ≤ h.length)
    (h2 : regions2 =
      if 0 < (if 3 ≤ cp.length then rp ++ [cp] else rp).length then
        regions ++ [⟨(if 3 ≤ cp.length then rp ++ [cp] else rp).headD [],
                     (if 3 ≤ cp.length then rp ++ [cp] else rp).drop 1⟩]
      else regions) :
    ∀ r ∈ regions2, 3 ≤ r.boundary.length ∧ ∀ h ∈ r.holes, 3 ≤ h.length := by
  have hall : ∀ c ∈ (if 3 ≤ cp.length then rp ++ [cp] else rp), 3 ≤ c.length := by
    by_cases hcp : 3 ≤ cp.length
    · rw [if_pos hcp]
      intro c hc
      rcases List.mem_append.mp hc with h | h
      · exact hrp c h
      · rw [List.mem_singleton] at h
        subst h
        exact hcp
    · rw [if_neg hcp]
      exact hrp
  subst h2
  intro r hr
  by_cases hlen : 0 < (if 3 ≤ cp.length then rp ++ [cp] else rp).length
  · rw [if_pos hlen] at hr
    rcases List.mem_append.mp hr with h | h
    · exact hreg r h
    · rw [List.mem_singleton] at h
      subst h
      constructor
      · cases hd : (if 3 ≤ cp.length then rp ++ [cp] else rp) with
        | nil => rw [hd] at hlen; simp at hlen
        | cons c0 cs =>
          have : c0 ∈ (if 3 ≤ cp.length then rp ++ [cp] else rp) := by
            rw [hd]; simp
          have h3 := hall c0 this
          simpa using h3
      · intro h hh
        simp only at hh
        have : h ∈ (if 3 ≤ cp.length then rp ++ [cp] else rp) :=
          List.mem_of_mem_drop hh
        exact hall h this
  · rw [if_neg hlen] at hr
    exact hreg r hr

theorem handleCommandLine_region_inv (line : String) (s : ParserState)
    (hinv : RegionInv s) : RegionInv (handleCommandLine line s) := by
  obtain ⟨hrp, hreg⟩ := hinv
  unfold handleCommandLine
  by_cases h36 : line = "G36"
  · rw [if_pos h36]
    exact ⟨by intro c hc; simp at hc, hreg⟩
  · rw [if_neg h36]
    by_cases h37 : line = "G37"
    · rw [if_pos h37]
      dsimp only
      constructor
      · intro c hc; simp at hc
      · exact close_shape_inv hrp hreg rfl
    · rw [if_neg h37]
      cases hd : dSearch [] line.data with
      | some kd =>
        cases kd with
        | mk kept d =>
          dsimp only
          by_cases h10 : 10 ≤ d
          · rw [if_pos h10]
            cases hap : (s.apertures.find? (fun p => p.1 == d)).map (·.2) with
            | some ap => exact ⟨hrp, hreg⟩
            | none => exact ⟨hrp, hreg⟩
          · rw [if_neg h10]
            obtain ⟨hr1, hr2⟩ := processCoords_region_fields kept (some d) s
            constructor
            · rcases hr2 with h | ⟨h, hcp⟩
              · rw [h]; exact hrp
              · rw [h]
                intro c hc
                rcases List.mem_append.mp hc with hm | hm
                · exact hrp c hm
                · rw [List.mem_singleton] at hm; subst hm; exact hcp
            · rw [hr1]; exact hreg
      | none =>
        obtain ⟨hr1, hr2⟩ := processCoords_region_fields line.data none s
        constructor
        · rcases hr2 with h | ⟨h, hcp⟩
          · rw [h]; exact hrp
          · rw [h]
            intro c hc
            rcases List.mem_append.mp hc with hm | hm
            · exact hrp c hm
            · rw [List.mem_singleton] at hm; subst hm; exact hcp
        · rw [hr1]; exact hreg

theorem processLine_region_inv (s : ParserState) (l : String)
    (hinv : RegionInv s) : RegionInv (processLine s l) := by
  unfold processLine
  dsimp only
  split
  · exact hinv
  · split
    · exact hinv
    · split
      · obtain ⟨h1, h2⟩ := handleParameterBlock_region_fields l.trim s
        exact ⟨h1 ▸ hinv.1, h2 ▸ hinv.2⟩
      · exact handleCommandLine_region_inv _ s hinv

theorem foldl_processLine_region_inv (lines : List String) :
    ∀ s : ParserState, RegionInv s → RegionInv (lines.foldl processLine s) := by
  induction lines with
  | nil => intro s hs; exact hs
  | cons l rest ih =>
    intro s hs
    rw [List.foldl_cons]
    exact ih _ (processLine_region_inv s l hs)

theorem finalizeRegion_region_inv (s : ParserState) (hinv : RegionInv s) :
    RegionInv (finalizeRegion s) := by
  obtain ⟨hrp, hreg⟩ := hinv
  unfold finalizeRegion
  split
  · dsimp only
    constructor
    · intro c hc; simp at hc
    · exact close_shape_inv hrp hreg rfl
  · exact ⟨hrp, hreg⟩

/-- C4: whenever a region is closed by G37, exactly one region is emitted
if any contour completed (the first completed contour is the boundary,
the later ones the holes, in order), and none otherwise; an open region
at end of file is finalized identically; and every contour retained as a
boundary or hole was completed with at least 3 points. -/
theorem gerber_region_finalization_spec :
    (∀ s : ParserState,
      ((s.regionPaths ++ if 3 ≤ s.currentPath.length then [s.currentPath] else []) = [] →
        (handleCommandLine "G37" s).regions = s.regions)
      ∧ (∀ b hs,
          (s.regionPaths ++ if 3 ≤ s.currentPath.length then [s.currentPath] else []) = b :: hs →
          (handleCommandLine "G37" s).regions = s.regions ++ [⟨b, hs⟩])
      ∧ (handleCommandLine "G37" s).inRegion = false)
    ∧ (∀ s : ParserState, s.inRegion = true →
      ((s.regionPaths ++ if 3 ≤ s.currentPath.length then [s.currentPath] else []) = [] →
        (finalizeRegion s).regions = s.regions)
      ∧ (∀ b hs,
          (s.regionPaths ++ if 3 ≤ s.currentPath.length then [s.currentPath] else []) = b :: hs →
          (finalizeRegion s).regions = s.regions ++ [⟨b, hs⟩]))
    ∧ (∀ name content role, (parseGerberFile name content role).regions =
        (finalizeRegion ((jsSplitLines content).foldl processLine initParserState)).regions)
    ∧ (∀ name content role, ∀ r ∈ (parseGerberFile name content role).regions,
        3 ≤ r.boundary.length ∧ ∀ h ∈ r.holes, 3 ≤ h.length) := by
  refine ⟨close_region_regions, finalize_region_regions, fun _ _ _ => rfl, ?_⟩
  intro name content role r hr
  have hinit : RegionInv initParserState := by
    constructor
    · intro c hc; simp [initParserState] at hc
    · intro rr hrr; simp [initParserState] at hrr
  have hfold := foldl_processLine_region_inv (jsSplitLines content) initParserState hinit
  have hfin := finalizeRegion_region_inv _ hfold
  exact hfin.2 r hr

/-- Witness for C4: closing the region of `rwState` emits exactly the
completed contour as boundary with no holes; closing with nothing
completed emits nothing. -/
theorem gerber_region_finalization_spec_witness :
    (handleCommandLine "G37" rwState).regions
        = rwState.regions ++ [⟨[⟨0, 0⟩, ⟨1, 0⟩, ⟨1, 1⟩], []⟩]
    ∧ (handleCommandLine "G37" initParserState).regions = initParserState.regions :=
  ⟨(gerber_region_finalization_spec.1 rwState).2.1 [⟨0, 0⟩, ⟨1, 0⟩, ⟨1, 1⟩] [] (by decide),
   (gerber_region_finalization_spec.1 initParserState).1 (by decide)⟩


/-! ### Stackup-builder lemmas and C9 -/

theorem routeLayer_copper_from (br : RPolygon) :
    ∀ (layers : List ParsedGerberLayer)
      (acc : List LayerGeometry × List LayerGeometry × List LayerGeometry),
      ∀ l ∈ (layers.foldl (routeLayer br) acc).1,
        l ∈ acc.1 ∨
          (l.kind = .copper ∧ ∃ layer ∈ layers, l.side = (roleToSideAndKind layer).1) := by
  intro layers
  induction layers with
  | nil =>
    intro acc l hl
    exact Or.inl hl
  | cons lay rest ih =>
    intro acc l hl
    rw [List.foldl_cons] at hl
    rcases ih (routeLayer br acc lay) l hl with h | ⟨hk, layer, hm, hs⟩
    · -- l came through the first step
      unfold routeLayer at h
      dsimp only at h
      cases hlk2 : (roleToSideAndKind lay).2 with
      | none => rw [hlk2] at h; exact Or.inl h
      | some kind =>
        cases hlk1 : (roleToSideAndKind lay).1 with
        | none => rw [hlk2, hlk1] at h; exact Or.inl h
        | some side =>
          rw [hlk2, hlk1] at h
          dsimp only at h
          by_cases hc : kind = PcbLayerKind.copper
          · rw [if_pos hc] at h
            rcases List.mem_append.mp h with h2 | h2
            · exact Or.inl h2
            · rw [List.mem_singleton] at h2
              subst h2
              refine Or.inr ⟨hc, lay, by simp, ?_⟩
              rw [hlk1]
          · rw [if_neg hc] at h
            by_cases hc2 : kind = PcbLayerKind.soldermask
            · rw [if_pos hc2] at h
              exact Or.inl h
            · rw [if_neg hc2] at h
              by_cases hc3 : kind = PcbLayerKind.silkscreen
              · rw [if_pos hc3] at h
                exact Or.inl h
              · rw [if_neg hc3] at h
                exact Or.inl h
    · exact Or.inr ⟨hk, layer, List.mem_cons_of_mem _ hm, hs⟩

/-- C9: the built geometry always contains a top-side and a bottom-side
copper layer, and when no classified layer maps to the respective side a
synthesized auto layer carrying the board rectangle (the outline
polygon list) is appended for it. -/
theorem buildPcbGeometry_copper_sides (params : BuildPcbGeometryParams) :
    (∃ l ∈ (buildPcbGeometry params).copperLayers,
        l.side = some PcbSide.top ∧ l.kind = PcbLayerKind.copper)
    ∧ (∃ l ∈ (buildPcbGeometry params).copperLayers,
        l.side = some PcbSide.bottom ∧ l.kind = PcbLayerKind.copper)
    ∧ ((∀ layer ∈ params.parsedGerbers, (roleToSideAndKind layer).1 ≠ some PcbSide.top) →
        ∃ ol, (buildPcbGeometry params).outline = some ol ∧
          (⟨"auto_top_copper", some PcbSide.top, PcbLayerKind.copper, ol.polygons⟩ : LayerGeometry)
            ∈ (buildPcbGeometry params).copperLayers)
    ∧ ((∀ layer ∈ params.parsedGerbers, (roleToSideAndKind layer).1 ≠ some PcbSide.bottom) →
        ∃ ol, (buildPcbGeometry params).outline = some ol ∧
          (⟨"auto_bottom_copper", some PcbSide.bottom, PcbLayerKind.copper, ol.polygons⟩ : LayerGeometry)
            ∈ (buildPcbGeometry params).copperLayers) := by
  unfold buildPcbGeometry
  dsimp only
  set br := (match deriveOutlineFromLayers params.parsedGerbers with
    | some op =>
      if 2 ≤ op.outer.length then
        ((computeBoundingBoxWH op).1, (computeBoundingBoxWH op).2, op)
      else
        (DEFAULT_BOARD_WIDTH_MM, DEFAULT_BOARD_HEIGHT_MM,
          createRectanglePolygon DEFAULT_BOARD_WIDTH_MM DEFAULT_BOARD_HEIGHT_MM)
    | none =>
      (DEFAULT_BOARD_WIDTH_MM, DEFAULT_BOARD_HEIGHT_MM,
        createRectanglePolygon DEFAULT_BOARD_WIDTH_MM DEFAULT_BOARD_HEIGHT_MM)).2.2 with hbr
  set copperLayers := (params.parsedGerbers.foldl (routeLayer br) ([], [], [])).1 with hcop
  have hkinds : ∀ l ∈ copperLayers,
      l.kind = PcbLayerKind.copper ∧ ∃ layer ∈ params.parsedGerbers,
        l.side = (roleToSideAndKind layer).1 := by
    intro l hl
    rcases routeLayer_copper_from br params.parsedGerbers ([], [], []) l hl with h | h
    · simp at h
    · exact h
  set autoTop : LayerGeometry :=
    ⟨"auto_top_copper", some PcbSide.top, PcbLayerKind.copper, [br]⟩ with hat
  set autoBot : LayerGeometry :=
    ⟨"auto_bottom_copper", some PcbSide.bottom, PcbLayerKind.copper, [br]⟩ with hab
  set copper2 := if copperLayers.any (fun l => l.side == some PcbSide.top) then copperLayers
    else copperLayers ++ [autoTop] with hc2
  set copper3 := if copper2.any (fun l => l.side == some PcbSide.bottom) then copper2
    else copper2 ++ [autoBot] with hc3
  have hsub2 : ∀ l ∈ copperLayers, l ∈ copper2 := by
    intro l hl
    rw [hc2]
    split
    · exact hl
    · exact List.mem_append_left _ hl
  have hsub3 : ∀ l ∈ copper2, l ∈ copper3 := by
    intro l hl
    rw [hc3]
    split
    · exact hl
    · exact List.mem_append_left _ hl
  have hkinds2 : ∀ l ∈ copper2, l.kind = PcbLayerKind.copper := by
    intro l hl
    rw [hc2] at hl
    split at hl
    · exact (hkinds l hl).1
    · rcases List.mem_append.mp hl with h | h
      · exact (hkinds l h).1
      · rw [List.mem_singleton] at h
        subst h
        rfl
  have htop : ∃ l ∈ copper3, l.side = some PcbSide.top ∧ l.kind = PcbLayerKind.copper := by
    by_cases hany : copperLayers.any (fun l => l.side == some PcbSide.top) = true
    · rcases List.any_eq_true.mp hany with ⟨l, hl, hside⟩
      rw [beq_iff_eq] at hside
      exact ⟨l, hsub3 l (hsub2 l hl), hside, (hkinds l hl).1⟩
    · have : autoTop ∈ copper2 := by
        rw [hc2, if_neg hany]
        exact List.mem_append_right _ (List.mem_singleton.mpr rfl)
      exact ⟨autoTop, hsub3 _ this, rfl, rfl⟩
  have hbot : ∃ l ∈ copper3, l.side = some PcbSide.bottom ∧ l.kind = PcbLayerKind.copper := by
    by_cases hany : copper2.any (fun l => l.side == some PcbSide.bottom) = true
    · rcases List.any_eq_true.mp hany with ⟨l, hl, hside⟩
      rw [beq_iff_eq] at hside
      exact ⟨l, hsub3 l hl, hside, hkinds2 l hl⟩
    · have : autoBot ∈ copper3 := by
        rw [hc3, if_neg hany]
        exact List.mem_append_right _ (List.mem_singleton.mpr rfl)
      exact ⟨autoBot, this, rfl, rfl⟩
  refine ⟨htop, hbot, ?_, ?_⟩
  · intro hnone
    refine ⟨⟨"outline", none, PcbLayerKind.outline, [br]⟩, rfl, ?_⟩
    have hany : copperLayers.any (fun l => l.side == some PcbSide.top) = false := by
      rw [← Bool.not_eq_true]
      intro hany
      rcases List.any_eq_true.mp hany with ⟨l, hl, hside⟩
      rw [beq_iff_eq] at hside
      rcases (hkinds l hl).2 with ⟨layer, hm, hs⟩
      exact hnone layer hm (hs ▸ hside)
    have : autoTop ∈ copper2 := by
      rw [hc2, if_neg (by rw [hany]; simp)]
      exact List.mem_append_right _ (List.mem_singleton.mpr rfl)
    exact hsub3 _ this
  · intro hnone
    refine ⟨⟨"outline", none, PcbLayerKind.outline, [br]⟩, rfl, ?_⟩
    have hany : copper2.any (fun l => l.side == some PcbSide.bottom) = false := by
      rw [← Bool.not_eq_true]
      intro hany
      rcases List.any_eq_true.mp hany with ⟨l, hl, hside⟩
      rw [beq_iff_eq] at hside
      rw [hc2] at hl
      have hl2 : l ∈ copperLayers := by
        by_cases hsplit : (copperLayers.any fun l => l.side == some PcbSide.top) = true
        · rw [if_pos hsplit] at hl
          exact hl
        · rw [if_neg hsplit] at hl
          rcases List.mem_append.mp hl with h | h
          · exact h
          · rw [List.mem_singleton] at h
            subst h
            rw [hat] at hside
            simp at hside
      rcases (hkinds l hl2).2 with ⟨layer, hm, hs⟩
      exact hnone layer hm (hs ▸ hside)
    rw [hc3, if_neg (by rw [hany]; simp)]
    exact List.mem_append_right _ (List.mem_singleton.mpr rfl)

/-- Witness for C9 at empty input: both auto layers are synthesized and
carry the outline polygon list. -/
theorem buildPcbGeometry_copper_sides_witness :
    (∃ ol, (buildPcbGeometry emptyParams).outline = some ol ∧
      (⟨"auto_top_copper", some PcbSide.top, PcbLayerKind.copper, ol.polygons⟩ : LayerGeometry)
        ∈ (buildPcbGeometry emptyParams).copperLayers)
    ∧ (∃ ol, (buildPcbGeometry emptyParams).outline = some ol ∧
      (⟨"auto_bottom_copper", some PcbSide.bottom, PcbLayerKind.copper, ol.polygons⟩ : LayerGeometry)
        ∈ (buildPcbGeometry emptyParams).copperLayers) :=
  ⟨(buildPcbGeometry_copper_sides emptyParams).2.2.1 (by simp [emptyParams]),
   (buildPcbGeometry_copper_sides emptyParams).2.2.2 (by simp [emptyParams])⟩

/-! ### Signed area lemmas (for C1) -/

theorem adjSum_eq_zip (f : RVec → RVec → ℝ) :
    ∀ l : List RVec, adjSum f l = ((l.zip (l.drop 1)).map (fun pq => f pq.1 pq.2)).sum := by
  intro l
  induction l with
  | nil => simp [adjSum]
  | cons p rest ih =>
    cases rest with
    | nil => simp [adjSum]
    | cons q rest2 =>
      simp only [adjSum, List.drop_one, List.tail_cons, List.zip_cons_cons, List.map_cons,
        List.sum_cons]
      rw [ih]
      simp [List.drop_one]

theorem zip_cyc (f : RVec → RVec → ℝ) :
    ∀ (t : List RVec) (a x : RVec),
      (a :: t).zip (t ++ [x]) = ((a :: t).zip t) ++ [(t.getLastD a, x)] := by
  intro t
  induction t with
  | nil => intro a x; simp
  | cons b t2 ih =>
    intro a x
    rw [List.getLastD_cons]
    simp only [List.cons_append, List.zip_cons_cons]
    rw [ih b x]

theorem cycSum_eq (f : RVec → RVec → ℝ) (l : List RVec) :
    cycSum f l = adjSum f l +
      (match l with
       | [] => 0
       | a :: t => f (t.getLastD a) a) := by
  cases l with
  | nil => simp [cycSum, adjSum]
  | cons a t =>
    unfold cycSum
    have h1 : (a :: t).drop 1 = t := rfl
    have h2 : (a :: t).take 1 = [a] := rfl
    rw [h1, h2, zip_cyc f t a a, List.map_append, List.sum_append]
    rw [adjSum_eq_zip]
    simp

theorem adjSum_append_last (f : RVec → RVec → ℝ) :
    ∀ (l : List RVec) (x : RVec),
      adjSum f (l ++ [x]) = adjSum f l +
        (match l with
         | [] => 0
         | a :: t => f (t.getLastD a) x) := by
  intro l
  induction l with
  | nil => intro x; simp [adjSum]
  | cons a t ih =>
    intro x
    cases t with
    | nil => simp [adjSum]
    | cons b t2 =>
      have h1 : adjSum f (a :: b :: t2 ++ [x]) = f a b + adjSum f ((b :: t2) ++ [x]) := by
        simp only [List.cons_append, adjSum]
        rfl
      rw [h1, ih x]
      dsimp only
      simp only [adjSum, List.getLastD_cons]
      ring

theorem adjSum_reverse (f : RVec → RVec → ℝ) (hanti : ∀ p q, f q p = -f p q) :
    ∀ l : List RVec, adjSum f l.reverse = -adjSum f l := by
  intro l
  induction l with
  | nil => simp [adjSum]
  | cons a t ih =>
    cases t with
    | nil => simp [adjSum]
    | cons b t2 =>
      cases hrev : (b :: t2).reverse with
      | nil => simp at hrev
      | cons c l2 =>
        have hlast : l2.getLastD c = b := by
          have h1 : (c :: l2).getLastD c = l2.getLastD c := by
            rw [List.getLastD_cons]
          have h2 : (c :: l2).getLast? = some b := by
            rw [← hrev, List.getLast?_reverse]
            rfl
          rw [← h1]
          rw [List.getLastD_eq_getLast?, h2]
          rfl
        rw [List.reverse_cons, adjSum_append_last, ih, hrev]
        dsimp only
        rw [hlast]
        simp only [adjSum]
        rw [hanti b a]
        ring

theorem cycSum_reverse (f : RVec → RVec → ℝ) (hanti : ∀ p q, f q p = -f p q) :
    ∀ l : List RVec, cycSum f l.reverse = -cycSum f l := by
  intro l
  cases l with
  | nil => simp [cycSum]
  | cons a t =>
    have hzero : ∀ p, f p p = 0 := by
      intro p
      have := hanti p p
      linarith
    cases hrev : (a :: t).reverse with
    | nil => simp at hrev
    | cons c l2 =>
      rw [cycSum_eq f (c :: l2), cycSum_eq f (a :: t)]
      have hadj : adjSum f (c :: l2) = -adjSum f (a :: t) := by
        rw [← hrev]
        exact adjSum_reverse f hanti (a :: t)
      have hc : (a :: t).getLast? = some c := by
        rw [← List.head?_reverse, hrev]
        rfl
      have hlast : l2.getLastD c = a := by
        have h1 : (c :: l2).getLastD c = l2.getLastD c := by
          rw [List.getLastD_cons]
        have h2 : (c :: l2).getLast? = some a := by
          rw [← hrev, List.getLast?_reverse]
          rfl
        rw [← h1, List.getLastD_eq_getLast?, h2]
        rfl
      have hct : t.getLastD a = c := by
        have : (a :: t).getLastD a = t.getLastD a := List.getLastD_cons a a t
        rw [← this, List.getLastD_eq_getLast?, hc]
        rfl
      dsimp only
      rw [hlast, hct, hadj]
      have h5 := hanti c a
      linarith

/-- The edge function of the shoelace formula used by
`computeSignedArea`. -/
theorem computeSignedArea_eq_cycSum (l : List RVec) :
    computeSignedArea l = cycSum (fun p q => (q.x - p.x) * (q.y + p.y)) l / 2 := rfl

theorem computeSignedArea_reverse (l : List RVec) :
    computeSignedArea l.reverse = -computeSignedArea l := by
  rw [computeSignedArea_eq_cycSum, computeSignedArea_eq_cycSum]
  rw [cycSum_reverse _ (by intro p q; ring)]
  ring

theorem computeSignedArea_short (l : List RVec) (h : l.length ≤ 2) :
    computeSignedArea l = 0 := by
  match l, h with
  | [], _ => simp [computeSignedArea]
  | [a], _ => simp [computeSignedArea]
  | [a, b], _ =>
    show (List.map (fun pq => (pq.2.x - pq.1.x) * (pq.2.y + pq.1.y))
      ([a, b].zip ([b] ++ [a]))).sum / 2 = 0
    have : ([a, b].zip ([b] ++ [a])) = [(a, b), (b, a)] := rfl
    rw [this]
    simp only [List.map_cons, List.map_nil, List.sum_cons, List.sum_nil]
    ring

theorem ensureClockwise_area_nonpos (l : List RVec) :
    computeSignedArea (ensureClockwise l) ≤ 0 := by
  unfold ensureClockwise
  by_cases h3 : l.length < 3
  · rw [if_pos h3]
    rw [computeSignedArea_short l (by omega)]
  · rw [if_neg h3]
    by_cases hneg : computeSignedArea l < 0
    · rw [if_pos hneg]
      exact le_of_lt hneg
    · rw [if_neg hneg]
      rw [computeSignedArea_reverse]
      push_neg at hneg
      linarith

theorem ensureClockwise_length (l : List RVec) :
    (ensureClockwise l).length = l.length := by
  unfold ensureClockwise
  split
  · rfl
  · split
    · rfl
    · exact List.length_reverse l

theorem dedupePoints_length_pos (F : List RVec) (h : F ≠ []) :
    1 ≤ (dedupePoints F).length := by
  cases F with
  | nil => exact absurd rfl h
  | cons p r =>
    unfold dedupePoints
    simp

theorem stroke_outer_shape (F : List RVec) (hF : 3 ≤ F.length) :
    1 ≤ (ensureClockwise (dedupePoints F)).length ∧
      computeSignedArea (ensureClockwise (dedupePoints F)) ≤ 0 := by
  constructor
  · rw [ensureClockwise_length]
    exact dedupePoints_length_pos F (by intro hnil; subst hnil; simp at hF)
  · exact ensureClockwise_area_nonpos _

/-- C1 (amended): every non-null polygon produced by the stroker has a
nonempty outer ring whose signed area is non-positive (clockwise
whenever it is nonzero), for every traversal direction of the input. -/
theorem strokePolyline_winding (points : List RVec) (width : ℝ) (poly : RPolygon)
    (h : strokePolyline points width = some poly) :
    1 ≤ poly.outer.length ∧ computeSignedArea poly.outer ≤ 0 := by
  unfold strokePolyline at h
  split at h
  · exact absurd h (by simp)
  · dsimp only at h
    split at h
    · exact absurd h (by simp)
    · rename_i hlen
      rw [Option.some_inj] at h
      subst h
      exact stroke_outer_shape _ (by omega)

theorem dedupeGo_all_same (last : RVec) :
    ∀ l : List RVec, (∀ q ∈ l, isSamePoint q last = true) → dedupeGo last l = [] := by
  intro l
  induction l with
  | nil => intro _; rfl
  | cons q qs ih =>
    intro hall
    unfold dedupeGo
    rw [if_pos (hall q (by simp))]
    exact ih (fun q2 hq2 => hall q2 (by simp [hq2]))

theorem isSamePoint_of_small {p q : RVec} {δ : ℝ}
    (hp : p.x * p.x + p.y * p.y ≤ δ) (hq : q.x * q.x + q.y * q.y ≤ δ)
    (hδ : 4 * δ ≤ POINT_JOIN_EPS * POINT_JOIN_EPS) : isSamePoint q p = true := by
  unfold isSamePoint
  rw [decide_eq_true_eq]
  nlinarith [sq_nonneg (q.x + p.x), sq_nonneg (q.y + p.y), sq_nonneg (q.x - p.x),
    sq_nonneg (q.y - p.y)]

theorem dedupePoints_ball (δ : ℝ) (h4 : 4 * δ ≤ POINT_JOIN_EPS * POINT_JOIN_EPS)
    (p0 : RVec) (l : List RVec)
    (hall : ∀ q ∈ p0 :: l, q.x * q.x + q.y * q.y ≤ δ) :
    dedupePoints (p0 :: l) = [p0] := by
  show p0 :: dedupeGo p0 l = [p0]
  rw [dedupeGo_all_same p0 l]
  intro q hq
  exact isSamePoint_of_small (hall p0 (by simp)) (hall q (by simp [hq])) h4

theorem circle_point_bound (θ h : ℝ) :
    (0 + Real.cos θ * h) * (0 + Real.cos θ * h) +
      (0 + Real.sin θ * h) * (0 + Real.sin θ * h) ≤ h * h := by
  have h1 := Real.sin_sq_add_cos_sq θ
  have h2 : (0 + Real.cos θ * h) * (0 + Real.cos θ * h) +
      (0 + Real.sin θ * h) * (0 + Real.sin θ * h)
      = (Real.sin θ ^ 2 + Real.cos θ ^ 2) * (h * h) := by ring
  rw [h2, h1, one_mul]

/-- Evaluation of the stroker on a zero-length centerline with a width
far below the duplicate-point tolerance: all 18 generated ring points
collapse to the single start point. -/
theorem stroke_degenerate :
    strokePolyline [⟨0, 0⟩, ⟨0, 0⟩] (1 / 1000000) = some ⟨[⟨0, 0⟩], []⟩ := by
  have hseg : segDirsOf [(⟨0, 0⟩ : RVec), ⟨0, 0⟩] = [⟨0, 0⟩] := by
    unfold segDirsOf
    simp only [List.drop_one, List.tail_cons, List.zip_cons_cons, List.zip_nil_right,
      List.map_cons, List.map_nil]
    rw [if_pos]
    unfold hypotR
    norm_num [Real.sqrt_eq_zero']
  unfold strokePolyline
  rw [if_neg (by norm_num)]
  dsimp only
  rw [hseg]
  simp only [List.length_cons, List.length_nil, List.headD_cons, List.getLastD_cons,
    List.getLastD_nil, List.range_zero, List.map_nil, List.nil_append,
    List.cons_append, List.singleton_append]
  rw [if_neg (by
    simp only [List.length_append, List.length_cons, List.length_nil, List.length_map,
      List.length_range, List.length_reverse, List.length_dropLast, List.length_drop]
    norm_num)]
  rw [Option.some_inj]
  rw [RPolygon.mk.injEq]
  refine ⟨?_, rfl⟩
  simp only [show (0 + 1 + 1 - 1 - 1 : ℕ) = 0 from rfl, List.range_zero, List.map_nil,
    List.nil_append, List.cons_append, List.singleton_append]
  rw [dedupePoints_ball ((1 / 1000000 / 2) * (1 / 1000000 / 2))
    (by unfold POINT_JOIN_EPS; norm_num)]
  · unfold ensureClockwise
    rw [if_pos (by norm_num)]
    rw [List.cons.injEq]
    refine ⟨?_, rfl⟩
    unfold addV scaleV leftNormal
    rw [RVec.mk.injEq]
    constructor <;> norm_num
  · intro q hq
    have hbody : ∀ (nrm : RVec → RVec),
        (nrm = leftNormal ∨ nrm = rightNormal) →
        (addV ⟨0, 0⟩ (scaleV (nrm ⟨0, 0⟩) (1 / 1000000 / 2)) : RVec).x *
            (addV ⟨0, 0⟩ (scaleV (nrm ⟨0, 0⟩) (1 / 1000000 / 2)) : RVec).x +
          (addV ⟨0, 0⟩ (scaleV (nrm ⟨0, 0⟩) (1 / 1000000 / 2)) : RVec).y *
            (addV ⟨0, 0⟩ (scaleV (nrm ⟨0, 0⟩) (1 / 1000000 / 2)) : RVec).y
          ≤ 1 / 1000000 / 2 * (1 / 1000000 / 2) := by
      intro nrm hn
      rcases hn with rfl | rfl <;>
        simp [addV, scaleV, leftNormal, rightNormal] <;> norm_num
    rcases List.mem_cons.mp hq with rfl | hq2
    · exact hbody leftNormal (Or.inl rfl)
    rcases List.mem_cons.mp hq2 with rfl | hq3
    · exact hbody leftNormal (Or.inl rfl)
    rcases List.mem_append.mp hq3 with hAB | hC
    · rcases List.mem_append.mp hAB with hA | hB
      · have hm := List.drop_subset 1 _ (List.dropLast_subset _ hA)
        rcases List.mem_map.mp hm with ⟨i, _, rfl⟩
        exact circle_point_bound _ _
      · rw [List.mem_reverse] at hB
        rcases List.mem_cons.mp hB with rfl | hB2
        · exact hbody rightNormal (Or.inr rfl)
        rcases List.mem_cons.mp hB2 with rfl | hB3
        · exact hbody rightNormal (Or.inr rfl)
        simp at hB3
    · rw [List.mem_reverse] at hC
      have hm := List.drop_subset 1 _ (List.dropLast_subset _ hC)
      rcases List.mem_map.mp hm with ⟨i, _, rfl⟩
      exact circle_point_bound _ _

/-- C1 counterexample: a 2-point centerline with positive width whose
non-null stroked polygon has a 1-point outer ring (the tolerance-based
dedup collapses the whole ring), contradicting the claimed 3-point
minimum (and, the area being zero, the claimed strictly negative signed
area). -/
theorem strokePolyline_ring_collapse_counterexample :
    2 ≤ ([(⟨0, 0⟩ : RVec), ⟨0, 0⟩]).length
    ∧ (0 : ℝ) < 1 / 1000000
    ∧ strokePolyline [⟨0, 0⟩, ⟨0, 0⟩] (1 / 1000000) = some ⟨[⟨0, 0⟩], []⟩
    ∧ ¬ 3 ≤ ([(⟨0, 0⟩ : RVec)]).length
    ∧ ¬ computeSignedArea [(⟨0, 0⟩ : RVec)] < 0 :=
  ⟨by norm_num, by norm_num, stroke_degenerate, by norm_num,
   by rw [computeSignedArea_short _ (by norm_num)]; norm_num⟩

/-- Witness for the amended C1 at the concrete degenerate stroke. -/
theorem strokePolyline_winding_witness :
    1 ≤ ([(⟨0, 0⟩ : RVec)]).length ∧ computeSignedArea [(⟨0, 0⟩ : RVec)] ≤ 0 :=
  strokePolyline_winding [⟨0, 0⟩, ⟨0, 0⟩] (1 / 1000000) ⟨[⟨0, 0⟩], []⟩ stroke_degenerate


/-! ## Polyline chaining lemmas and claims C7 and C10 -/

theorem extendPolyline_none (tracks : List RTrack) (nm : NodeMap) (fs : Bool)
    (pts : List RVec) (v : List Bool)
    (h : pickCandidate tracks v (if fs then pts.headD ⟨0, 0⟩ else pts.getLastD ⟨0, 0⟩)
      (nm (keyOf (if fs then pts.headD ⟨0, 0⟩ else pts.getLastD ⟨0, 0⟩))) = none) :
    extendPolyline tracks nm fs pts v = (pts, v) := by
  rw [extendPolyline]
  split
  · rfl
  · next ib heq =>
      rw [h] at heq
      cases heq

theorem extendPolyline_some (tracks : List RTrack) (nm : NodeMap) (fs : Bool)
    (pts : List RVec) (v : List Bool) (ib : ℕ × Bool)
    (h : pickCandidate tracks v (if fs then pts.headD ⟨0, 0⟩ else pts.getLastD ⟨0, 0⟩)
      (nm (keyOf (if fs then pts.headD ⟨0, 0⟩ else pts.getLastD ⟨0, 0⟩))) = some ib) :
    extendPolyline tracks nm fs pts v =
      extendPolyline tracks nm fs
        (if fs then
          (if ib.2 then (tracks.getD ib.1 ⟨⟨0, 0⟩, ⟨0, 0⟩, 0⟩).stop
            else (tracks.getD ib.1 ⟨⟨0, 0⟩, ⟨0, 0⟩, 0⟩).start) :: pts
         else pts ++ [if ib.2 then (tracks.getD ib.1 ⟨⟨0, 0⟩, ⟨0, 0⟩, 0⟩).stop
            else (tracks.getD ib.1 ⟨⟨0, 0⟩, ⟨0, 0⟩, 0⟩).start])
        (v.set ib.1 true) := by
  conv_lhs => rw [extendPolyline]
  split
  · next heq => rw [h] at heq; cases heq
  · next ib2 heq =>
      rw [h] at heq
      cases heq
      rfl

theorem extendPolyline_visited_len (tracks : List RTrack) (nm : NodeMap) (fs : Bool)
    (pts : List RVec) (v : List Bool) :
    (extendPolyline tracks nm fs pts v).2.length = v.length := by
  induction pts, v using extendPolyline.induct tracks nm fs with
  | case1 pts v pivot hpick =>
    rw [extendPolyline_none tracks nm fs pts v hpick]
  | case2 pts v pivot ib hpick nt v2 oth p2 ih =>
    rw [extendPolyline_some tracks nm fs pts v ib hpick]
    simp only [nt, v2, oth, p2, dite_eq_ite] at ih
    rw [ih]
    exact List.length_set ..

theorem getD_set_true_mono : ∀ (l : List Bool) (i j : ℕ), l.getD j false = true →
    (l.set i true).getD j false = true := by
  intro l
  induction l with
  | nil => intro i j h; simp [List.getD] at h
  | cons b t ih =>
    intro i j h
    cases i with
    | zero =>
      cases j with
      | zero => simp [List.set]
      | succ j2 => simpa [List.set, List.getD_cons_succ] using h
    | succ i2 =>
      cases j with
      | zero => simpa [List.set, List.getD_cons_zero] using h
      | succ j2 =>
        simp only [List.getD_cons_succ] at h
        simpa [List.set, List.getD_cons_succ] using ih i2 j2 h

theorem extendPolyline_visited_mono (tracks : List RTrack) (nm : NodeMap) (fs : Bool)
    (pts : List RVec) (v : List Bool) (j : ℕ) (hj : v.getD j false = true) :
    (extendPolyline tracks nm fs pts v).2.getD j false = true := by
  induction pts, v using extendPolyline.induct tracks nm fs with
  | case1 pts v pivot hpick =>
    rw [extendPolyline_none tracks nm fs pts v hpick]
    exact hj
  | case2 pts v pivot ib hpick nt v2 oth p2 ih =>
    rw [extendPolyline_some tracks nm fs pts v ib hpick]
    simp only [nt, v2, oth, p2, dite_eq_ite] at ih
    exact ih (getD_set_true_mono v ib.1 j hj)

theorem getD_indep : ∀ (l : List Bool) (i : ℕ), i < l.length →
    l.getD i true = l.getD i false := by
  intro l
  induction l with
  | nil => intro i h; simp at h
  | cons b t ih =>
    intro i h
    cases i with
    | zero => simp
    | succ j =>
      simp only [List.getD_cons_succ]
      exact ih j (by simpa using h)

theorem getD_set_self : ∀ (l : List Bool) (i : ℕ), i < l.length →
    (l.set i true).getD i false = true := by
  intro l
  induction l with
  | nil => intro i h; simp at h
  | cons b t ih =>
    intro i h
    cases i with
    | zero => simp [List.set]
    | succ j =>
      simp only [List.set, List.getD_cons_succ]
      exact ih j (by simpa using h)

theorem buildStep_visited_len (tracks : List RTrack) (nm : NodeMap)
    (acc : List Polyline × List Bool) (i : ℕ) :
    (buildStep tracks nm acc i).2.length = acc.2.length := by
  unfold buildStep
  by_cases hv : acc.2.getD i true = true
  · rw [if_pos hv]
  · rw [if_neg hv]
    cases hg : tracks.get? i with
    | none => rfl
    | some t0 =>
      dsimp only
      by_cases hlen : 2 ≤ (simplifyPolyline (dedupePoints
          (extendPolyline tracks nm false
            (extendPolyline tracks nm true [t0.start, t0.stop] (acc.2.set i true)).1
            (extendPolyline tracks nm true [t0.start, t0.stop] (acc.2.set i true)).2).1)
          2 (1 / 10000)).length
      · rw [if_pos hlen]
        dsimp only
        rw [extendPolyline_visited_len, extendPolyline_visited_len]
        exact List.length_set ..
      · rw [if_neg hlen]
        dsimp only
        rw [extendPolyline_visited_len, extendPolyline_visited_len]
        exact List.length_set ..

theorem buildStep_visited_mono (tracks : List RTrack) (nm : NodeMap)
    (acc : List Polyline × List Bool) (i : ℕ) (j : ℕ)
    (hj : acc.2.getD j false = true) :
    (buildStep tracks nm acc i).2.getD j false = true := by
  unfold buildStep
  by_cases hv : acc.2.getD i true = true
  · rw [if_pos hv]; exact hj
  · rw [if_neg hv]
    cases hg : tracks.get? i with
    | none => exact hj
    | some t0 =>
      dsimp only
      have hcore : (extendPolyline tracks nm false
          (extendPolyline tracks nm true [t0.start, t0.stop] (acc.2.set i true)).1
          (extendPolyline tracks nm true [t0.start, t0.stop] (acc.2.set i true)).2).2.getD
          j false = true :=
        extendPolyline_visited_mono _ _ _ _ _ _
          (extendPolyline_visited_mono _ _ _ _ _ _ (getD_set_true_mono _ i j hj))
      by_cases hlen : 2 ≤ (simplifyPolyline (dedupePoints
          (extendPolyline tracks nm false
            (extendPolyline tracks nm true [t0.start, t0.stop] (acc.2.set i true)).1
            (extendPolyline tracks nm true [t0.start, t0.stop] (acc.2.set i true)).2).1)
          2 (1 / 10000)).length
      · rw [if_pos hlen]
        exact hcore
      · rw [if_neg hlen]
        exact hcore

theorem buildStep_sets_self (tracks : List RTrack) (nm : NodeMap)
    (acc : List Polyline × List Bool) (i : ℕ) (hi : i < tracks.length)
    (hlen : acc.2.length = tracks.length) :
    (buildStep tracks nm acc i).2.getD i false = true := by
  unfold buildStep
  by_cases hv : acc.2.getD i true = true
  · rw [if_pos hv]
    rw [← getD_indep acc.2 i (by omega)]
    exact hv
  · rw [if_neg hv]
    cases hg : tracks.get? i with
    | none =>
      rw [List.get?_eq_none] at hg
      omega
    | some t0 =>
      dsimp only
      have hcore : (extendPolyline tracks nm false
          (extendPolyline tracks nm true [t0.start, t0.stop] (acc.2.set i true)).1
          (extendPolyline tracks nm true [t0.start, t0.stop] (acc.2.set i true)).2).2.getD
          i false = true :=
        extendPolyline_visited_mono _ _ _ _ _ _
          (extendPolyline_visited_mono _ _ _ _ _ _ (getD_set_self acc.2 i (by omega)))
      by_cases hl2 : 2 ≤ (simplifyPolyline (dedupePoints
          (extendPolyline tracks nm false
            (extendPolyline tracks nm true [t0.start, t0.stop] (acc.2.set i true)).1
            (extendPolyline tracks nm true [t0.start, t0.stop] (acc.2.set i true)).2).1)
          2 (1 / 10000)).length
      · rw [if_pos hl2]
        exact hcore
      · rw [if_neg hl2]
        exact hcore

theorem foldl_buildStep_len (tracks : List RTrack) (nm : NodeMap) :
    ∀ (L : List ℕ) (acc : List Polyline × List Bool),
    (L.foldl (buildStep tracks nm) acc).2.length = acc.2.length := by
  intro L
  induction L with
  | nil => intro acc; rfl
  | cons a L2 ih =>
    intro acc
    rw [List.foldl_cons, ih, buildStep_visited_len]

theorem foldl_buildStep_mono (tracks : List RTrack) (nm : NodeMap) :
    ∀ (L : List ℕ) (acc : List Polyline × List Bool) (j : ℕ),
    acc.2.getD j false = true →
    (L.foldl (buildStep tracks nm) acc).2.getD j false = true := by
  intro L
  induction L with
  | nil => intro acc j hj; exact hj
  | cons a L2 ih =>
    intro acc j hj
    rw [List.foldl_cons]
    exact ih _ j (buildStep_visited_mono tracks nm acc a j hj)

theorem foldl_buildStep_covers (tracks : List RTrack) (nm : NodeMap) :
    ∀ (L : List ℕ) (acc : List Polyline × List Bool),
    acc.2.length = tracks.length →
    ∀ j ∈ L, j < tracks.length →
    (L.foldl (buildStep tracks nm) acc).2.getD j false = true := by
  intro L
  induction L with
  | nil => intro acc _ j hj; simp at hj
  | cons a L2 ih =>
    intro acc hlen j hj hjlt
    rw [List.foldl_cons]
    rcases List.mem_cons.mp hj with rfl | hj2
    · exact foldl_buildStep_mono tracks nm L2 _ j
        (buildStep_sets_self tracks nm acc j hjlt hlen)
    · exact ih _ (by rw [buildStep_visited_len]; exact hlen) j hj2 hjlt

theorem mem_newlyVisited (before after : List Bool) (j : ℕ) :
    j ∈ newlyVisited before after ↔
      j < after.length ∧ after.getD j false = true ∧ before.getD j false = false := by
  unfold newlyVisited
  rw [List.mem_filter, List.mem_range]
  rw [Bool.and_eq_true, Bool.not_eq_true']

theorem newlyVisited_nodup (before after : List Bool) :
    (newlyVisited before after).Nodup :=
  (List.nodup_range _).filter _

theorem newlyVisited_refl (v : List Bool) : newlyVisited v v = [] := by
  unfold newlyVisited
  rw [List.filter_eq_nil_iff]
  intro j _
  cases h : v.getD j false <;> simp [h]

theorem newlyVisited_trans_perm (v v1 v2 : List Bool)
    (l01 : v1.length = v.length) (l12 : v2.length = v1.length)
    (m01 : ∀ j, v.getD j false = true → v1.getD j false = true)
    (m12 : ∀ j, v1.getD j false = true → v2.getD j false = true) :
    (newlyVisited v v1 ++ newlyVisited v1 v2).Perm (newlyVisited v v2) := by
  have hnd : (newlyVisited v v1 ++ newlyVisited v1 v2).Nodup := by
    rw [List.nodup_append]
    refine ⟨newlyVisited_nodup _ _, newlyVisited_nodup _ _, ?_⟩
    rw [List.disjoint_left]
    intro a ha hb
    rw [mem_newlyVisited] at ha hb
    rw [ha.2.1] at hb
    exact absurd hb.2.2 (by simp)
  rw [List.perm_ext_iff_of_nodup hnd (newlyVisited_nodup _ _)]
  intro a
  rw [List.mem_append, mem_newlyVisited, mem_newlyVisited, mem_newlyVisited]
  constructor
  · rintro (⟨h1, h2, h3⟩ | ⟨h1, h2, h3⟩)
    · exact ⟨by omega, m12 a h2, h3⟩
    · refine ⟨by omega, h2, ?_⟩
      cases hv : v.getD a false with
      | false => rfl
      | true => rw [m01 a hv] at h3; cases h3
  · rintro ⟨h1, h2, h3⟩
    cases hv1 : v1.getD a false with
    | false => exact Or.inr ⟨h1, h2, rfl⟩
    | true => exact Or.inl ⟨by omega, rfl, h3⟩

theorem zip_drop_scanl (f : List Polyline × List Bool → ℕ → List Polyline × List Bool) :
    ∀ (L : List ℕ) (s : List Polyline × List Bool),
    (List.scanl f s L).zip ((List.scanl f s L).drop 1) =
      match L with
      | [] => []
      | a :: L2 => (s, f s a) ::
          ((List.scanl f (f s a) L2).zip ((List.scanl f (f s a) L2).drop 1)) := by
  intro L s
  cases L with
  | nil => rfl
  | cons a L2 =>
    rw [List.scanl_cons]
    dsimp only
    cases L2 with
    | nil => rfl
    | cons b L3 =>
      rw [List.scanl_cons]
      rfl

theorem newly_chain (tracks : List RTrack) (nm : NodeMap) :
    ∀ (L : List ℕ) (acc : List Polyline × List Bool),
    acc.2.length = tracks.length →
    ((((List.scanl (buildStep tracks nm) acc L).zip
        ((List.scanl (buildStep tracks nm) acc L).drop 1)).map
      (fun p => newlyVisited p.1.2 p.2.2)).flatten).Perm
    (newlyVisited acc.2 (L.foldl (buildStep tracks nm) acc).2) := by
  intro L
  induction L with
  | nil =>
    intro acc _
    rw [zip_drop_scanl]
    simp only [List.map_nil, List.flatten_nil, List.foldl_nil]
    rw [newlyVisited_refl]
  | cons a L2 ih =>
    intro acc hlen
    rw [zip_drop_scanl]
    simp only [List.map_cons, List.flatten_cons, List.foldl_cons]
    have hlen2 : (buildStep tracks nm acc a).2.length = tracks.length := by
      rw [buildStep_visited_len]; exact hlen
    refine ((ih (buildStep tracks nm acc a) hlen2).append_left
      (newlyVisited acc.2 (buildStep tracks nm acc a).2)).trans ?_
    exact newlyVisited_trans_perm acc.2 (buildStep tracks nm acc a).2
      (L2.foldl (buildStep tracks nm) (buildStep tracks nm acc a)).2
      (by rw [hlen2, hlen])
      (by rw [foldl_buildStep_len])
      (fun j hj => buildStep_visited_mono tracks nm acc a j hj)
      (fun j hj => foldl_buildStep_mono tracks nm L2 _ j hj)

theorem scanl_getLastD (f : List Polyline × List Bool → ℕ → List Polyline × List Bool) :
    ∀ (L : List ℕ) (s d : List Polyline × List Bool),
    (List.scanl f s L).getLastD d = L.foldl f s := by
  intro L
  induction L with
  | nil => intro s d; rfl
  | cons a L2 ih =>
    intro s d
    rw [List.scanl_cons, List.foldl_cons]
    simp only [List.singleton_append, List.getLastD_cons]
    exact ih (f s a) s

theorem getD_replicate_false : ∀ (n j : ℕ), (List.replicate n false).getD j false = false := by
  intro n
  induction n with
  | zero => intro j; simp [List.getD]
  | succ m ih =>
    intro j
    cases j with
    | zero => simp [List.replicate]
    | succ j2 =>
      rw [List.replicate_succ, List.getD_cons_succ]
      exact ih j2

/-- C10: over the whole `buildPolylines` run, every track index is consumed
(marked visited) exactly once: the per-iteration groups of newly consumed
indices concatenate to a permutation of all track indices; and the polylines
returned by `buildPolylines` are exactly those of the final loop state. -/
theorem buildPolylines_consumes_once (tracks : List RTrack) :
    ((consumedGroups tracks).flatten).Perm (List.range tracks.length)
    ∧ buildPolylines tracks = ((buildStates tracks).getLastD ([], [])).1 := by
  constructor
  · unfold consumedGroups buildStates
    refine (newly_chain tracks (buildNodeMap tracks) (List.range tracks.length)
      ([], List.replicate tracks.length false) (by simp)).trans ?_
    have hlen : (((List.range tracks.length).foldl (buildStep tracks (buildNodeMap tracks))
        ([], List.replicate tracks.length false)).2).length = tracks.length := by
      rw [foldl_buildStep_len]; simp
    have heq : newlyVisited (([], List.replicate tracks.length false) :
          List Polyline × List Bool).2
        ((List.range tracks.length).foldl (buildStep tracks (buildNodeMap tracks))
          ([], List.replicate tracks.length false)).2 = List.range tracks.length := by
      unfold newlyVisited
      rw [hlen]
      apply List.filter_eq_self.mpr
      intro j hj
      rw [List.mem_range] at hj
      rw [foldl_buildStep_covers tracks (buildNodeMap tracks) (List.range tracks.length)
        ([], List.replicate tracks.length false) (by simp) j (List.mem_range.mpr hj) hj]
      dsimp only
      rw [getD_replicate_false]
      rfl
    rw [heq]
  · unfold buildPolylines buildStates
    by_cases he : tracks.isEmpty = true
    · rw [if_pos he]
      rw [List.isEmpty_iff] at he
      subst he
      rfl
    · rw [if_neg he]
      rw [scanl_getLastD]

theorem isSamePoint_refl (p : RVec) : isSamePoint p p = true := by
  unfold isSamePoint
  rw [decide_eq_true_eq]
  unfold POINT_JOIN_EPS
  nlinarith

theorem isSamePoint_comm (p q : RVec) : isSamePoint p q = isSamePoint q p := by
  unfold isSamePoint
  have h : (p.x - q.x) * (p.x - q.x) + (p.y - q.y) * (p.y - q.y)
      = (q.x - p.x) * (q.x - p.x) + (q.y - p.y) * (q.y - p.y) := by ring
  rw [h]

theorem isSamePoint_false_iff (p q : RVec) :
    isSamePoint p q = false ↔
      ¬ (p.x - q.x) * (p.x - q.x) + (p.y - q.y) * (p.y - q.y)
          ≤ POINT_JOIN_EPS * POINT_JOIN_EPS := by
  unfold isSamePoint
  rw [decide_eq_false_iff_not]

theorem hypotR_far (p q : RVec) (h : isSamePoint p q = false) :
    (1 : ℝ) / 10000 ≤ hypotR (q.x - p.x) (q.y - p.y) := by
  rw [isSamePoint_false_iff] at h
  unfold POINT_JOIN_EPS at h
  push_neg at h
  unfold hypotR
  have h2 : (q.x - p.x) * (q.x - p.x) + (q.y - p.y) * (q.y - p.y)
      = (p.x - q.x) * (p.x - q.x) + (p.y - q.y) * (p.y - q.y) := by ring
  rw [h2]
  have h3 : ((1 : ℝ) / 1000) * (1 / 1000)
      ≤ (p.x - q.x) * (p.x - q.x) + (p.y - q.y) * (p.y - q.y) := le_of_lt h
  calc (1 : ℝ) / 10000 ≤ 1 / 1000 := by norm_num
    _ = Real.sqrt ((1 / 1000) * (1 / 1000)) := by
        rw [Real.sqrt_mul_self (by norm_num)]
    _ ≤ Real.sqrt ((p.x - q.x) * (p.x - q.x) + (p.y - q.y) * (p.y - q.y)) :=
        Real.sqrt_le_sqrt h3

theorem hypotR_flip (a b : ℝ) : hypotR (-a) (-b) = hypotR a b := by
  unfold hypotR
  have h : (-a) * (-a) + (-b) * (-b) = a * a + b * b := by ring
  rw [h]

theorem pickCandidate_append (tracks : List RTrack) (v : List Bool) (pivot : RVec) :
    ∀ (l1 l2 : List (ℕ × Bool)),
    pickCandidate tracks v pivot (l1 ++ l2) =
      match pickCandidate tracks v pivot l1 with
      | some r => some r
      | none => pickCandidate tracks v pivot l2 := by
  intro l1
  induction l1 with
  | nil => intro l2; rfl
  | cons inc rest ih =>
    intro l2
    rw [List.cons_append]
    rw [pickCandidate, pickCandidate]
    by_cases hv : v.getD inc.1 true = true
    · rw [if_pos hv, if_pos hv]
      exact ih l2
    · rw [if_neg hv, if_neg hv]
      cases hg : tracks.get? inc.1 with
      | none => exact ih l2
      | some cand =>
        dsimp only
        by_cases h1 : isSamePoint cand.start pivot = true
        · rw [if_pos h1, if_pos h1]
        · rw [if_neg h1, if_neg h1]
          by_cases h2 : isSamePoint cand.stop pivot = true
          · rw [if_pos h2, if_pos h2]
          · rw [if_neg h2, if_neg h2]
            exact ih l2

theorem pickCandidate_all_visited (tracks : List RTrack) (v : List Bool) (pivot : RVec)
    (hall : ∀ j, v.getD j true = true) :
    ∀ (incs : List (ℕ × Bool)), pickCandidate tracks v pivot incs = none := by
  intro incs
  induction incs with
  | nil => rfl
  | cons inc rest ih =>
    rw [pickCandidate, if_pos (hall inc.1)]
    exact ih

theorem buildNodeMap_pair (t0 t1 : RTrack) (k : ℤ × ℤ) :
    buildNodeMap [t0, t1] k =
      (if k = keyOf t0.start then [(0, true)] else [])
      ++ (if k = keyOf t0.stop then [(0, false)] else [])
      ++ (if k = keyOf t1.start then [(1, true)] else [])
      ++ (if k = keyOf t1.stop then [(1, false)] else []) := by
  unfold buildNodeMap nmAdd
  simp only [List.enum, List.enumFrom, List.foldl_cons, List.foldl_nil]
  split_ifs <;> simp_all

theorem pick_single_visited (tracks : List RTrack) (v : List Bool) (pivot : RVec)
    (i : ℕ) (b : Bool) (h : v.getD i true = true) :
    pickCandidate tracks v pivot [(i, b)] = none := by
  rw [pickCandidate]
  rw [if_pos h]
  rfl

theorem pick_single_miss (tracks : List RTrack) (v : List Bool) (pivot : RVec)
    (i : ℕ) (b : Bool) (cand : RTrack) (hv : v.getD i true = false)
    (hg : tracks.get? i = some cand)
    (h1 : isSamePoint cand.start pivot = false)
    (h2 : isSamePoint cand.stop pivot = false) :
    pickCandidate tracks v pivot [(i, b)] = none := by
  rw [pickCandidate]
  rw [if_neg (by rw [hv]; exact Bool.false_ne_true)]
  rw [hg]
  dsimp only
  rw [if_neg (by rw [h1]; exact Bool.false_ne_true)]
  rw [if_neg (by rw [h2]; exact Bool.false_ne_true)]
  rfl

theorem pick_single_hit (tracks : List RTrack) (v : List Bool) (pivot : RVec)
    (i : ℕ) (b : Bool) (cand : RTrack) (hv : v.getD i true = false)
    (hg : tracks.get? i = some cand)
    (h1 : isSamePoint cand.start pivot = true) :
    pickCandidate tracks v pivot [(i, b)] = some (i, true) := by
  rw [pickCandidate]
  rw [if_neg (by rw [hv]; exact Bool.false_ne_true)]
  rw [hg]
  dsimp only
  rw [if_pos h1]

theorem pick_if_none (tracks : List RTrack) (v : List Bool) (pivot : RVec)
    (c : Prop) [Decidable c] (e : ℕ × Bool)
    (h : pickCandidate tracks v pivot [e] = none) :
    pickCandidate tracks v pivot (if c then [e] else []) = none := by
  by_cases hc : c
  · rw [if_pos hc]; exact h
  · rw [if_neg hc]; rfl

theorem pick_append_none (tracks : List RTrack) (v : List Bool) (pivot : RVec)
    (l1 l2 : List (ℕ × Bool))
    (h1 : pickCandidate tracks v pivot l1 = none)
    (h2 : pickCandidate tracks v pivot l2 = none) :
    pickCandidate tracks v pivot (l1 ++ l2) = none := by
  rw [pickCandidate_append, h1]
  exact h2

theorem simplifyPolyline_two_le (pts : List RVec) (a m : ℝ) (h3 : 3 ≤ pts.length) :
    2 ≤ (simplifyPolyline pts a m).length := by
  unfold simplifyPolyline
  rw [if_neg (by omega)]
  dsimp only
  cases hf : findFirstDir (pts.headD ⟨0, 0⟩) m (pts.drop 1) with
  | none => norm_num
  | some pd =>
    dsimp only
    by_cases hl : ((pts.drop 2).foldl (simplifyStep (a * Real.pi / 180) m)
        ([pts.headD ⟨0, 0⟩, pd.1], pd.1, pd.2)).1.length < 2
    · rw [if_pos hl]
      norm_num
    · rw [if_neg hl]
      omega

theorem buildPolylines_pair (A B B2 C : RVec) (w : ℝ)
    (hKey : keyOf B2 = keyOf B)
    (hB2B : isSamePoint B2 B = true)
    (hBA : isSamePoint B A = false)
    (hB2A : isSamePoint B2 A = false)
    (hCA : isSamePoint C A = false)
    (hCB : isSamePoint C B = false) :
    buildPolylines [⟨A, B, w⟩, ⟨B2, C, w⟩]
      = [⟨simplifyPolyline [A, B, C] 2 (1 / 10000),
          if w = 0 then DEFAULT_TRACE_WIDTH_MM else w⟩] := by
  have hget0 : ([(⟨A, B, w⟩ : RTrack), ⟨B2, C, w⟩]).get? 0 = some ⟨A, B, w⟩ := rfl
  have hget1 : ([(⟨A, B, w⟩ : RTrack), ⟨B2, C, w⟩]).get? 1 = some ⟨B2, C, w⟩ := rfl
  have hpickA : pickCandidate [⟨A, B, w⟩, ⟨B2, C, w⟩] [true, false] A
      (buildNodeMap [⟨A, B, w⟩, ⟨B2, C, w⟩] (keyOf A)) = none := by
    rw [buildNodeMap_pair]
    dsimp only
    refine pick_append_none _ _ _ _ _ (pick_append_none _ _ _ _ _ (pick_append_none _ _ _ _ _
      ?_ ?_) ?_) ?_
    · exact pick_if_none _ _ _ _ _ (pick_single_visited _ _ _ 0 true rfl)
    · exact pick_if_none _ _ _ _ _ (pick_single_visited _ _ _ 0 false rfl)
    · exact pick_if_none _ _ _ _ _ (pick_single_miss _ _ _ 1 true ⟨B2, C, w⟩ rfl hget1 hB2A hCA)
    · exact pick_if_none _ _ _ _ _ (pick_single_miss _ _ _ 1 false ⟨B2, C, w⟩ rfl hget1 hB2A hCA)
  have hpickB : pickCandidate [⟨A, B, w⟩, ⟨B2, C, w⟩] [true, false] B
      (buildNodeMap [⟨A, B, w⟩, ⟨B2, C, w⟩] (keyOf B)) = some (1, true) := by
    rw [buildNodeMap_pair]
    dsimp only
    have e1 : pickCandidate [⟨A, B, w⟩, ⟨B2, C, w⟩] [true, false] B
        ((if keyOf B = keyOf A then [(0, true)] else [])
          ++ if keyOf B = keyOf B then [(0, false)] else []) = none :=
      pick_append_none _ _ _ _ _
        (pick_if_none _ _ _ _ _ (pick_single_visited _ _ _ 0 true rfl))
        (by
          rw [if_pos (rfl : keyOf B = keyOf B)]
          exact pick_single_visited _ _ _ 0 false rfl)
    have e3 : pickCandidate [⟨A, B, w⟩, ⟨B2, C, w⟩] [true, false] B
        (if keyOf B = keyOf B2 then [(1, true)] else []) = some (1, true) := by
      rw [hKey, if_pos (rfl : keyOf B = keyOf B)]
      exact pick_single_hit _ _ _ 1 true ⟨B2, C, w⟩ rfl hget1 hB2B
    rw [pickCandidate_append]
    rw [pickCandidate_append]
    rw [e1]
    dsimp only
    rw [e3]
  have hallTT : ∀ j, ([true, true] : List Bool).getD j true = true := by
    intro j
    match j with
    | 0 => rfl
    | 1 => rfl
    | n + 2 => rfl
  have hext1 : extendPolyline [⟨A, B, w⟩, ⟨B2, C, w⟩]
      (buildNodeMap [⟨A, B, w⟩, ⟨B2, C, w⟩]) true [A, B] [true, false]
      = ([A, B], [true, false]) :=
    extendPolyline_none _ _ _ _ _ hpickA
  have hext2 : extendPolyline [⟨A, B, w⟩, ⟨B2, C, w⟩]
      (buildNodeMap [⟨A, B, w⟩, ⟨B2, C, w⟩]) false [A, B] [true, false]
      = ([A, B, C], [true, true]) := by
    rw [extendPolyline_some _ _ _ _ _ (1, true) hpickB]
    show extendPolyline _ _ _ [A, B, C] [true, true] = _
    exact extendPolyline_none _ _ _ _ _
      (pickCandidate_all_visited _ _ _ hallTT _)
  have hded : dedupePoints [A, B, C] = [A, B, C] := by
    simp only [dedupePoints, dedupeGo, hBA, hCB, Bool.false_eq_true, if_false]
  unfold buildPolylines
  rw [if_neg (by exact Bool.false_ne_true)]
  show (List.foldl (buildStep [⟨A, B, w⟩, ⟨B2, C, w⟩]
      (buildNodeMap [⟨A, B, w⟩, ⟨B2, C, w⟩])) ([], [false, false]) [0, 1]).1 = _
  rw [List.foldl_cons]
  have hstep0 : buildStep [⟨A, B, w⟩, ⟨B2, C, w⟩] (buildNodeMap [⟨A, B, w⟩, ⟨B2, C, w⟩])
      ([], [false, false]) 0
      = ([⟨simplifyPolyline [A, B, C] 2 (1 / 10000),
          if w = 0 then DEFAULT_TRACE_WIDTH_MM else w⟩], [true, true]) := by
    unfold buildStep
    rw [if_neg (by exact Bool.false_ne_true)]
    rw [hget0]
    dsimp only
    simp only [List.set_cons_zero]
    show (if 2 ≤ (simplifyPolyline (dedupePoints
        (extendPolyline [⟨A, B, w⟩, ⟨B2, C, w⟩] (buildNodeMap [⟨A, B, w⟩, ⟨B2, C, w⟩]) false
          (extendPolyline [⟨A, B, w⟩, ⟨B2, C, w⟩] (buildNodeMap [⟨A, B, w⟩, ⟨B2, C, w⟩]) true
            [A, B] [true, false]).1
          (extendPolyline [⟨A, B, w⟩, ⟨B2, C, w⟩] (buildNodeMap [⟨A, B, w⟩, ⟨B2, C, w⟩]) true
            [A, B] [true, false]).2).1) 2 (1 / 10000)).length then _ else _) = _
    rw [hext1]
    show (if 2 ≤ (simplifyPolyline (dedupePoints
        (extendPolyline [⟨A, B, w⟩, ⟨B2, C, w⟩] (buildNodeMap [⟨A, B, w⟩, ⟨B2, C, w⟩]) false
          [A, B] [true, false]).1) 2 (1 / 10000)).length then _ else _) = _
    rw [hext2]
    show (if 2 ≤ (simplifyPolyline (dedupePoints [A, B, C]) 2 (1 / 10000)).length
        then _ else _) = _
    rw [hded]
    rw [if_pos (simplifyPolyline_two_le [A, B, C] 2 (1 / 10000) (by norm_num))]
    rfl
  rw [hstep0]
  rw [List.foldl_cons, List.foldl_nil]
  rfl

theorem simplify_three_eval (A B C : RVec)
    (h1 : (1 : ℝ) / 10000 ≤ hypotR (B.x - A.x) (B.y - A.y))
    (h2 : (1 : ℝ) / 10000 ≤ hypotR (C.x - B.x) (C.y - B.y)) :
    simplifyPolyline [A, B, C] 2 (1 / 10000) =
      if |Real.arccos (min 1 (max (-1)
          ((B.x - A.x) / hypotR (B.x - A.x) (B.y - A.y)
              * ((C.x - B.x) / hypotR (C.x - B.x) (C.y - B.y))
            + (B.y - A.y) / hypotR (B.x - A.x) (B.y - A.y)
              * ((C.y - B.y) / hypotR (C.x - B.x) (C.y - B.y)))))|
          < 2 * Real.pi / 180
      then [A, C] else [A, B, C] := by
  have hfd : findFirstDir A (1 / 10000) [B, C]
      = some (B, ⟨(B.x - A.x) / hypotR (B.x - A.x) (B.y - A.y),
          (B.y - A.y) / hypotR (B.x - A.x) (B.y - A.y)⟩) := by
    unfold findFirstDir
    dsimp only
    rw [if_pos h1]
  unfold simplifyPolyline
  rw [if_neg (by norm_num)]
  dsimp only
  simp only [List.headD_cons, List.getLastD_cons, List.getLastD_nil,
    List.drop_succ_cons, List.drop_zero]
  simp only [hfd]
  rw [List.foldl_cons, List.foldl_nil]
  unfold simplifyStep
  rw [if_neg (not_lt.mpr h2)]
  by_cases hang : |Real.arccos (min 1 (max (-1)
      ((B.x - A.x) / hypotR (B.x - A.x) (B.y - A.y)
          * ((C.x - B.x) / hypotR (C.x - B.x) (C.y - B.y))
        + (B.y - A.y) / hypotR (B.x - A.x) (B.y - A.y)
          * ((C.y - B.y) / hypotR (C.x - B.x) (C.y - B.y)))))|
      < 2 * Real.pi / 180
  · rw [if_pos hang, if_pos hang]
    norm_num
  · rw [if_neg hang, if_neg hang]
    norm_num

theorem simplify_three_reverse (A B C : RVec)
    (hAB : isSamePoint A B = false) (hBC : isSamePoint B C = false) :
    simplifyPolyline [C, B, A] 2 (1 / 10000)
      = (simplifyPolyline [A, B, C] 2 (1 / 10000)).reverse := by
  have h1 := hypotR_far A B hAB
  have h2 := hypotR_far B C hBC
  have hlen1 : hypotR (B.x - C.x) (B.y - C.y) = hypotR (C.x - B.x) (C.y - B.y) := by
    rw [show B.x - C.x = -(C.x - B.x) by ring, show B.y - C.y = -(C.y - B.y) by ring,
      hypotR_flip]
  have hlen2 : hypotR (A.x - B.x) (A.y - B.y) = hypotR (B.x - A.x) (B.y - A.y) := by
    rw [show A.x - B.x = -(B.x - A.x) by ring, show A.y - B.y = -(B.y - A.y) by ring,
      hypotR_flip]
  have h1r : (1 : ℝ) / 10000 ≤ hypotR (B.x - C.x) (B.y - C.y) := by
    rw [hlen1]; exact h2
  have h2r : (1 : ℝ) / 10000 ≤ hypotR (A.x - B.x) (A.y - B.y) := by
    rw [hlen2]; exact h1
  rw [simplify_three_eval A B C h1 h2, simplify_three_eval C B A h1r h2r]
  have hdot : (B.x - C.x) / hypotR (B.x - C.x) (B.y - C.y)
        * ((A.x - B.x) / hypotR (A.x - B.x) (A.y - B.y))
      + (B.y - C.y) / hypotR (B.x - C.x) (B.y - C.y)
        * ((A.y - B.y) / hypotR (A.x - B.x) (A.y - B.y))
      = (B.x - A.x) / hypotR (B.x - A.x) (B.y - A.y)
        * ((C.x - B.x) / hypotR (C.x - B.x) (C.y - B.y))
      + (B.y - A.y) / hypotR (B.x - A.x) (B.y - A.y)
        * ((C.y - B.y) / hypotR (C.x - B.x) (C.y - B.y)) := by
    rw [hlen1, hlen2]
    ring
  rw [hdot]
  by_cases hang : |Real.arccos (min 1 (max (-1)
      ((B.x - A.x) / hypotR (B.x - A.x) (B.y - A.y)
          * ((C.x - B.x) / hypotR (C.x - B.x) (C.y - B.y))
        + (B.y - A.y) / hypotR (B.x - A.x) (B.y - A.y)
          * ((C.y - B.y) / hypotR (C.x - B.x) (C.y - B.y)))))|
      < 2 * Real.pi / 180
  · rw [if_pos hang, if_pos hang]
    rfl
  · rw [if_neg hang, if_neg hang]
    rfl

/-- C7 (amended): when the two tracks share the middle endpoint exactly and
the three points are pairwise farther apart than the join tolerance, chaining
is direction-commutative: building polylines from the reversed tracks yields
exactly the pointwise-reversed polylines. -/
theorem buildPolylines_reverse_comm (A B C : RVec) (w : ℝ)
    (hAB : isSamePoint A B = false) (hBC : isSamePoint B C = false)
    (hAC : isSamePoint A C = false) :
    buildPolylines [⟨C, B, w⟩, ⟨B, A, w⟩]
      = (buildPolylines [⟨A, B, w⟩, ⟨B, C, w⟩]).map
          (fun pl => ⟨pl.points.reverse, pl.width⟩) := by
  rw [buildPolylines_pair A B B C w rfl (isSamePoint_refl B)
    (by rw [isSamePoint_comm]; exact hAB)
    (by rw [isSamePoint_comm]; exact hAB)
    (by rw [isSamePoint_comm]; exact hAC)
    (by rw [isSamePoint_comm]; exact hBC)]
  rw [buildPolylines_pair C B B A w rfl (isSamePoint_refl B) hBC hBC hAC hAB]
  rw [List.map_cons, List.map_nil]
  rw [List.cons.injEq]
  refine ⟨?_, rfl⟩
  rw [Polyline.mk.injEq]
  exact ⟨simplify_three_reverse A B C hAB hBC, rfl⟩

/-- Witness for the amended C7 at the right-angle three-point chain. -/
theorem buildPolylines_reverse_comm_witness :
    buildPolylines [⟨⟨1, 1⟩, ⟨1, 0⟩, 1⟩, ⟨⟨1, 0⟩, ⟨0, 0⟩, 1⟩]
      = (buildPolylines [⟨⟨0, 0⟩, ⟨1, 0⟩, 1⟩, ⟨⟨1, 0⟩, ⟨1, 1⟩, 1⟩]).map
          (fun pl => ⟨pl.points.reverse, pl.width⟩) :=
  buildPolylines_reverse_comm ⟨0, 0⟩ ⟨1, 0⟩ ⟨1, 1⟩ 1
    (by rw [isSamePoint_false_iff]; unfold POINT_JOIN_EPS; norm_num)
    (by rw [isSamePoint_false_iff]; unfold POINT_JOIN_EPS; norm_num)
    (by rw [isSamePoint_false_iff]; unfold POINT_JOIN_EPS; norm_num)

theorem key_coincide_2501 : keyOf ⟨2501 / 2500, 0⟩ = keyOf ⟨1, 0⟩ := by
  unfold keyOf jsRound
  rw [Prod.mk.injEq]
  constructor
  · rw [show ((2501 : ℝ) / 2500 * 1000 + 1 / 2) = 10009 / 10 from by norm_num]
    rw [show ((1 : ℝ) * 1000 + 1 / 2) = 2001 / 2 from by norm_num]
    have ha : ⌊(10009 / 10 : ℝ)⌋ = (1000 : ℤ) := by
      rw [Int.floor_eq_iff]
      constructor <;> norm_num
    have hb : ⌊(2001 / 2 : ℝ)⌋ = (1000 : ℤ) := by
      rw [Int.floor_eq_iff]
      constructor <;> norm_num
    rw [ha, hb]
  · rfl

theorem same_2501 : isSamePoint ⟨2501 / 2500, 0⟩ ⟨1, 0⟩ = true := by
  unfold isSamePoint
  rw [decide_eq_true_eq]
  unfold POINT_JOIN_EPS
  norm_num

theorem simplify_fwd_eval :
    simplifyPolyline [(⟨0, 0⟩ : RVec), ⟨1, 0⟩, ⟨1, 1⟩] 2 (1 / 10000)
      = [(⟨0, 0⟩ : RVec), ⟨1, 0⟩, ⟨1, 1⟩] := by
  have h1 : (1 : ℝ) / 10000 ≤ hypotR ((⟨1, 0⟩ : RVec).x - (⟨0, 0⟩ : RVec).x)
      ((⟨1, 0⟩ : RVec).y - (⟨0, 0⟩ : RVec).y) := by
    show (1 : ℝ) / 10000 ≤ hypotR (1 - 0) (0 - 0)
    unfold hypotR
    rw [show ((1 : ℝ) - 0) * (1 - 0) + (0 - 0) * (0 - 0) = 1 from by norm_num]
    rw [Real.sqrt_one]
    norm_num
  have h2 : (1 : ℝ) / 10000 ≤ hypotR ((⟨1, 1⟩ : RVec).x - (⟨1, 0⟩ : RVec).x)
      ((⟨1, 1⟩ : RVec).y - (⟨1, 0⟩ : RVec).y) := by
    show (1 : ℝ) / 10000 ≤ hypotR (1 - 1) (1 - 0)
    unfold hypotR
    rw [show ((1 : ℝ) - 1) * (1 - 1) + (1 - 0) * (1 - 0) = 1 from by norm_num]
    rw [Real.sqrt_one]
    norm_num
  rw [simplify_three_eval ⟨0, 0⟩ ⟨1, 0⟩ ⟨1, 1⟩ h1 h2]
  rw [if_neg]
  intro hlt
  have hd : ((⟨1, 0⟩ : RVec).x - (⟨0, 0⟩ : RVec).x) / hypotR ((⟨1, 0⟩ : RVec).x - (⟨0, 0⟩ : RVec).x)
        ((⟨1, 0⟩ : RVec).y - (⟨0, 0⟩ : RVec).y)
        * (((⟨1, 1⟩ : RVec).x - (⟨1, 0⟩ : RVec).x) / hypotR ((⟨1, 1⟩ : RVec).x - (⟨1, 0⟩ : RVec).x)
          ((⟨1, 1⟩ : RVec).y - (⟨1, 0⟩ : RVec).y))
      + ((⟨1, 0⟩ : RVec).y - (⟨0, 0⟩ : RVec).y) / hypotR ((⟨1, 0⟩ : RVec).x - (⟨0, 0⟩ : RVec).x)
        ((⟨1, 0⟩ : RVec).y - (⟨0, 0⟩ : RVec).y)
        * (((⟨1, 1⟩ : RVec).y - (⟨1, 0⟩ : RVec).y) / hypotR ((⟨1, 1⟩ : RVec).x - (⟨1, 0⟩ : RVec).x)
          ((⟨1, 1⟩ : RVec).y - (⟨1, 0⟩ : RVec).y)) = 0 := by
    show (1 - 0) / hypotR (1 - 0) (0 - 0) * ((1 - 1) / hypotR (1 - 1) (1 - 0))
      + (0 - 0) / hypotR (1 - 0) (0 - 0) * ((1 - 0) / hypotR (1 - 1) (1 - 0)) = (0 : ℝ)
    norm_num
  rw [hd] at hlt
  rw [show max (-1 : ℝ) 0 = 0 from by norm_num, show min (1 : ℝ) 0 = 0 from by norm_num] at hlt
  rw [Real.arccos_zero] at hlt
  rw [abs_of_nonneg (by positivity)] at hlt
  have hpi := Real.pi_pos
  linarith

theorem simplify_rev_eval :
    simplifyPolyline [(⟨1, 1⟩ : RVec), ⟨2501 / 2500, 0⟩, ⟨0, 0⟩] 2 (1 / 10000)
      = [(⟨1, 1⟩ : RVec), ⟨2501 / 2500, 0⟩, ⟨0, 0⟩] := by
  have hs : hypotR ((⟨2501 / 2500, 0⟩ : RVec).x - (⟨1, 1⟩ : RVec).x)
      ((⟨2501 / 2500, 0⟩ : RVec).y - (⟨1, 1⟩ : RVec).y)
      = Real.sqrt (6250001 / 6250000) := by
    show hypotR (2501 / 2500 - 1) (0 - 1) = _
    unfold hypotR
    rw [show ((2501 : ℝ) / 2500 - 1) * (2501 / 2500 - 1) + (0 - 1) * (0 - 1)
      = 6250001 / 6250000 from by norm_num]
  have hs1 : (1 : ℝ) ≤ Real.sqrt (6250001 / 6250000) := by
    rw [show (1 : ℝ) = Real.sqrt 1 from (Real.sqrt_one).symm]
    exact Real.sqrt_le_sqrt (by norm_num)
  have hs0 : (0 : ℝ) < Real.sqrt (6250001 / 6250000) := lt_of_lt_of_le one_pos hs1
  have ht : hypotR ((⟨0, 0⟩ : RVec).x - (⟨2501 / 2500, 0⟩ : RVec).x)
      ((⟨0, 0⟩ : RVec).y - (⟨2501 / 2500, 0⟩ : RVec).y) = 2501 / 2500 := by
    show hypotR (0 - 2501 / 2500) (0 - 0) = _
    unfold hypotR
    rw [show ((0 : ℝ) - 2501 / 2500) * (0 - 2501 / 2500) + (0 - 0) * (0 - 0)
      = (2501 / 2500) * (2501 / 2500) from by norm_num]
    exact Real.sqrt_mul_self (by norm_num)
  have h1 : (1 : ℝ) / 10000 ≤ hypotR ((⟨2501 / 2500, 0⟩ : RVec).x - (⟨1, 1⟩ : RVec).x)
      ((⟨2501 / 2500, 0⟩ : RVec).y - (⟨1, 1⟩ : RVec).y) := by
    rw [hs]
    linarith
  have h2 : (1 : ℝ) / 10000 ≤ hypotR ((⟨0, 0⟩ : RVec).x - (⟨2501 / 2500, 0⟩ : RVec).x)
      ((⟨0, 0⟩ : RVec).y - (⟨2501 / 2500, 0⟩ : RVec).y) := by
    rw [ht]
    norm_num
  rw [simplify_three_eval ⟨1, 1⟩ ⟨2501 / 2500, 0⟩ ⟨0, 0⟩ h1 h2]
  rw [if_neg]
  intro hlt
  rw [hs, ht] at hlt
  have hd : ((⟨2501 / 2500, 0⟩ : RVec).x - (⟨1, 1⟩ : RVec).x) / Real.sqrt (6250001 / 6250000)
        * (((⟨0, 0⟩ : RVec).x - (⟨2501 / 2500, 0⟩ : RVec).x) / (2501 / 2500))
      + ((⟨2501 / 2500, 0⟩ : RVec).y - (⟨1, 1⟩ : RVec).y) / Real.sqrt (6250001 / 6250000)
        * (((⟨0, 0⟩ : RVec).y - (⟨2501 / 2500, 0⟩ : RVec).y) / (2501 / 2500))
      = -((1 / 2500) / Real.sqrt (6250001 / 6250000)) := by
    show (2501 / 2500 - 1) / Real.sqrt (6250001 / 6250000) * ((0 - 2501 / 2500) / (2501 / 2500))
      + (0 - 1) / Real.sqrt (6250001 / 6250000) * ((0 - 0) / (2501 / 2500))
      = -((1 / 2500 : ℝ) / Real.sqrt (6250001 / 6250000))
    rw [show ((2501 : ℝ) / 2500 - 1) = 1 / 2500 from by norm_num]
    rw [show ((0 : ℝ) - 2501 / 2500) / (2501 / 2500) = -1 from by norm_num]
    rw [show ((0 : ℝ) - 0) / (2501 / 2500) = 0 from by norm_num]
    ring
  rw [hd] at hlt
  have hq0 : (0 : ℝ) ≤ (1 / 2500) / Real.sqrt (6250001 / 6250000) :=
    div_nonneg (by norm_num) (le_of_lt hs0)
  have hq1 : (1 / 2500 : ℝ) / Real.sqrt (6250001 / 6250000) ≤ 1 := by
    rw [div_le_one hs0]
    linarith
  have hmax : max (-1 : ℝ) (-((1 / 2500) / Real.sqrt (6250001 / 6250000)))
      = -((1 / 2500) / Real.sqrt (6250001 / 6250000)) := by
    rw [max_eq_right]
    linarith
  have hmin : min (1 : ℝ) (-((1 / 2500) / Real.sqrt (6250001 / 6250000)))
      = -((1 / 2500) / Real.sqrt (6250001 / 6250000)) := by
    rw [min_eq_right]
    linarith
  rw [hmax, hmin] at hlt
  have harc : Real.pi / 2 ≤ Real.arccos (-((1 / 2500) / Real.sqrt (6250001 / 6250000))) := by
    rw [Real.arccos_eq_pi_div_two_sub_arcsin]
    have := Real.arcsin_nonpos.mpr (by linarith :
      -((1 / 2500 : ℝ) / Real.sqrt (6250001 / 6250000)) ≤ 0)
    linarith
  rw [abs_of_nonneg (Real.arccos_nonneg _)] at hlt
  have hpi := Real.pi_pos
  linarith

/-- C7 counterexample: two tracks whose shared endpoint only coincides under
the sub-millimeter quantization (same node key, within the join tolerance,
but not equal): chaining keeps the first-listed representative of the shared
point, so building from the reversed tracks is not the reverse of building
from the original tracks. -/
theorem buildPolylines_quantized_not_reverse :
    keyOf ⟨2501 / 2500, 0⟩ = keyOf ⟨1, 0⟩
    ∧ isSamePoint ⟨2501 / 2500, 0⟩ ⟨1, 0⟩ = true
    ∧ buildPolylines [⟨⟨1, 1⟩, ⟨2501 / 2500, 0⟩, 1⟩, ⟨⟨1, 0⟩, ⟨0, 0⟩, 1⟩]
        ≠ (buildPolylines [⟨⟨0, 0⟩, ⟨1, 0⟩, 1⟩, ⟨⟨2501 / 2500, 0⟩, ⟨1, 1⟩, 1⟩]).map
            (fun pl => ⟨pl.points.reverse, pl.width⟩) := by
  refine ⟨key_coincide_2501, same_2501, ?_⟩
  have hnum : ∀ (a b c d : ℝ),
      ¬ (a - c) * (a - c) + (b - d) * (b - d) ≤ 1 / 1000 * (1 / 1000) →
      isSamePoint ⟨a, b⟩ ⟨c, d⟩ = false := by
    intro a b c d h
    rw [isSamePoint_false_iff]
    unfold POINT_JOIN_EPS
    exact h
  have hfwd : buildPolylines [⟨⟨0, 0⟩, ⟨1, 0⟩, 1⟩, ⟨⟨2501 / 2500, 0⟩, ⟨1, 1⟩, 1⟩]
      = [⟨[(⟨0, 0⟩ : RVec), ⟨1, 0⟩, ⟨1, 1⟩],
          if (1 : ℝ) = 0 then DEFAULT_TRACE_WIDTH_MM else 1⟩] := by
    rw [buildPolylines_pair ⟨0, 0⟩ ⟨1, 0⟩ ⟨2501 / 2500, 0⟩ ⟨1, 1⟩ 1
      key_coincide_2501 same_2501
      (hnum 1 0 0 0 (by norm_num))
      (hnum (2501 / 2500) 0 0 0 (by norm_num))
      (hnum 1 1 0 0 (by norm_num))
      (hnum 1 1 1 0 (by norm_num))]
    rw [simplify_fwd_eval]
  have hrev : buildPolylines [⟨⟨1, 1⟩, ⟨2501 / 2500, 0⟩, 1⟩, ⟨⟨1, 0⟩, ⟨0, 0⟩, 1⟩]
      = [⟨[(⟨1, 1⟩ : RVec), ⟨2501 / 2500, 0⟩, ⟨0, 0⟩],
          if (1 : ℝ) = 0 then DEFAULT_TRACE_WIDTH_MM else 1⟩] := by
    rw [buildPolylines_pair ⟨1, 1⟩ ⟨2501 / 2500, 0⟩ ⟨1, 0⟩ ⟨0, 0⟩ 1
      key_coincide_2501.symm (by rw [isSamePoint_comm]; exact same_2501)
      (hnum (2501 / 2500) 0 1 1 (by norm_num))
      (hnum 1 0 1 1 (by norm_num))
      (hnum 0 0 1 1 (by norm_num))
      (hnum 0 0 (2501 / 2500) 0 (by norm_num))]
    rw [simplify_rev_eval]
  rw [hfwd, hrev]
  intro hcontra
  rw [List.map_cons, List.map_nil] at hcontra
  rw [List.cons.injEq] at hcontra
  have hpts := (Polyline.mk.injEq _ _ _ _).mp hcontra.1
  have hpoints : [(⟨1, 1⟩ : RVec), ⟨2501 / 2500, 0⟩, ⟨0, 0⟩]
      = [(⟨1, 1⟩ : RVec), ⟨1, 0⟩, ⟨0, 0⟩] := hpts.1
  rw [List.cons.injEq, List.cons.injEq] at hpoints
  have hB := hpoints.2.1
  rw [RVec.mk.injEq] at hB
  have : (2501 : ℝ) / 2500 = 1 := hB.1
  norm_num at this

end GerbersRenderer
